import Mathlib

/-!
Verification development for the RVO (ORCA) crowd-simulation model.

The embedding mirrors the source files:
* the 2-D vector primitive (src/src/math/Vector2.ts), and
* the RVOModel class (the ORCA model in src/unnamed/part_001, second
  document): neighbor search, ORCA constraint construction, the
  incremental linear program (linearProgram1/2/3), and the tick
  function update.

Numbers are modelled over an arbitrary linear ordered field F.  The
only operation of the source that is not a field operation is the
square root (Math.sqrt / Math.hypot / Vector2.mag); every definition
that needs it takes an explicit function argument sqrt : F → F, and
theorems that depend on its meaning assume GoodSqrt sqrt (the exact
square root on nonnegative inputs).  This keeps every definition
computable while letting theorems instantiate F := ℝ, sqrt := Real.sqrt.
-/

namespace RVO

variable {F : Type*} [LinearOrderedField F]

/-- Two-dimensional vector, mirroring the immutable Vector2 class. -/
structure Vec (F : Type*) where
  x : F
  y : F
deriving DecidableEq

namespace Vec

/-- Vector2.zero. -/
def zero : Vec F := ⟨0, 0⟩

/-- Vector2.add. -/
def add (a b : Vec F) : Vec F := ⟨a.x + b.x, a.y + b.y⟩

/-- Vector2.sub. -/
def sub (a b : Vec F) : Vec F := ⟨a.x - b.x, a.y - b.y⟩

/-- Vector2.mult (scalar multiplication). -/
def mult (a : Vec F) (s : F) : Vec F := ⟨a.x * s, a.y * s⟩

/-- Vector2.dot. -/
def dot (a b : Vec F) : F := a.x * b.x + a.y * b.y

end Vec

/-- Helper absSq of the RVO module: squared magnitude. -/
def absSq (v : Vec F) : F := v.x * v.x + v.y * v.y

/-- Helper det of the RVO module: 2-D cross product. -/
def det (a b : Vec F) : F := a.x * b.y - a.y * b.x

/-- Helper perp of the RVO module: counter-clockwise perpendicular. -/
def perp (v : Vec F) : Vec F := ⟨-v.y, v.x⟩

/-- Vector2.mag, with the square root passed explicitly
(Math.hypot x y = sqrt (x*x + y*y)). -/
def mag (sqrt : F → F) (v : Vec F) : F := sqrt (v.x * v.x + v.y * v.y)

/-- Vector2.normalize: zero vector when the magnitude is zero. -/
def normalize (sqrt : F → F) (v : Vec F) : Vec F :=
  let magnitude := mag sqrt v
  if magnitude = 0 then Vec.zero else v.mult (1 / magnitude)

/-- Vector2.dist. -/
def dist (sqrt : F → F) (a b : Vec F) : F := mag sqrt (a.sub b)

/-- Vector2.limit: clamp the magnitude to a maximum. -/
def limit (sqrt : F → F) (v : Vec F) (maxVal : F) : Vec F :=
  if mag sqrt v ≤ maxVal then v else (normalize sqrt v).mult maxVal

/-- Constant EPSILON = 1e-5 of the RVO module. -/
def EPSILON : F := 1 / 100000

/-- Helper ensureDirection of the RVO module: fixed fallback unit vector
when the direction is degenerate. -/
def ensureDirection (sqrt : F → F) (dir : Vec F) : Vec F :=
  if absSq dir ≤ EPSILON then ⟨1, 0⟩ else normalize sqrt dir

/-- Specification of an exact square root on nonnegative inputs;
Real.sqrt satisfies it. -/
def GoodSqrt (sqrt : F → F) : Prop :=
  ∀ x : F, 0 ≤ x → 0 ≤ sqrt x ∧ sqrt x * sqrt x = x

/-- OrcaLine: a half-plane constraint given by a point and a direction. -/
structure Line (F : Type*) where
  point : Vec F
  direction : Vec F
deriving DecidableEq

instance : Inhabited (Line F) := ⟨⟨⟨0, 0⟩, ⟨0, 0⟩⟩⟩

/-- NeighborRef: agent index plus squared distance. -/
structure NeighborRef (F : Type*) where
  index : ℕ
  distSq : F
deriving DecidableEq

/-- RVOAgent record. -/
structure Agent (F : Type*) where
  id : String
  position : Vec F
  velocity : Vec F
  preferredVelocity : Vec F
  radius : F
  preferredSpeed : F
  maxSpeed : F
  anchors : Vec F × Vec F
  headingIndex : Fin 2
  color : String
deriving DecidableEq

instance : Inhabited (Agent F) :=
  ⟨{ id := "", position := ⟨0, 0⟩, velocity := ⟨0, 0⟩, preferredVelocity := ⟨0, 0⟩,
     radius := 0, preferredSpeed := 0, maxSpeed := 0,
     anchors := (⟨0, 0⟩, ⟨0, 0⟩), headingIndex := 0, color := "" }⟩

/-- Simulation parameters read by RVOModel.update; absent entries fall
back to the DEFAULTS record (neighborRadius 4, timeHorizon 2.5). -/
structure Params (F : Type*) where
  neighborRadius : Option F
  timeHorizon : Option F
deriving DecidableEq

/-- State of an RVOModel instance: its parameters and its agent list. -/
structure RVOState (F : Type*) where
  params : Params F
  agents : List (Agent F)
deriving DecidableEq

/-- Class constant maxNeighbors = 10. -/
def maxNeighbors : ℕ := 10

/-- Class constant pixelsPerMeter = 55. -/
def pixelsPerMeter : F := 55

/-- Ordering of neighbor references used by the sort comparator
(a, b) => a.distSq - b.distSq. -/
def nrLE (a b : NeighborRef F) : Prop := a.distSq ≤ b.distSq

instance : DecidableRel (nrLE (F := F)) :=
  fun a b => inferInstanceAs (Decidable (a.distSq ≤ b.distSq))

instance : IsTotal (NeighborRef F) nrLE := ⟨fun a b => le_total a.distSq b.distSq⟩

instance : IsTrans (NeighborRef F) nrLE := ⟨fun _ _ _ h1 h2 => le_trans h1 h2⟩

/-- RVOModel.insertNeighbor: push, sort ascending by squared distance,
evict the farthest entry once the length exceeds maxNeighbors. -/
def insertNeighbor (list : List (NeighborRef F)) (neighbor : NeighborRef F) :
    List (NeighborRef F) :=
  let pushed := list ++ [neighbor]
  let sorted := pushed.insertionSort nrLE
  if maxNeighbors < sorted.length then sorted.dropLast else sorted

/-- All index pairs (i, j) with i < j < n, in the iteration order of the
two nested loops of buildNeighborTable. -/
def allPairs (n : ℕ) : List (ℕ × ℕ) :=
  (List.range n).flatMap fun i =>
    ((List.range n).filter fun j => i < j).map fun j => (i, j)

/-- Body of the double loop of buildNeighborTable for one index pair:
skip the pair when beyond the squared radius, otherwise insert the
neighbor reference symmetrically into both rows. -/
def neighborStep (agents : List (Agent F)) (radiusSq : F)
    (table : List (List (NeighborRef F))) (ij : ℕ × ℕ) :
    List (List (NeighborRef F)) :=
  let i := ij.1
  let j := ij.2
  let distSq :=
    absSq ((agents.getD i default).position.sub (agents.getD j default).position)
  if radiusSq < distSq then table
  else
    let table1 := table.set i (insertNeighbor (table.getD i []) ⟨j, distSq⟩)
    table1.set j (insertNeighbor (table1.getD j []) ⟨i, distSq⟩)

/-- RVOModel.buildNeighborTable: exhaustive pairwise distance
computation with symmetric sorted insertion. -/
def buildNeighborTable (agents : List (Agent F)) (radiusSq : F) :
    List (List (NeighborRef F)) :=
  (allPairs agents.length).foldl (neighborStep agents radiusSq)
    (List.replicate agents.length [])

/-- Active anchor goal of an agent: agent.anchors[agent.headingIndex]. -/
def anchor (a : Agent F) : Vec F :=
  if a.headingIndex = 0 then a.anchors.1 else a.anchors.2

/-- RVOModel.swapGoalIfNeeded: flip the active-goal index when close to
the active anchor. -/
def swapGoalIfNeeded (sqrt : F → F) (a : Agent F) : Agent F :=
  let target := anchor a
  if dist sqrt a.position target < max (a.radius * (4 / 5)) 6 then
    { a with headingIndex := if a.headingIndex = 0 then 1 else 0 }
  else a

/-- RVOModel.computePreferredVelocity. -/
def computePreferredVelocity (sqrt : F → F) (a : Agent F) : Vec F :=
  let target := anchor a
  let toGoal := target.sub a.position
  let distance := mag sqrt toGoal
  if distance < 1 then Vec.zero
  else limit sqrt ((toGoal.mult (1 / distance)).mult a.preferredSpeed) a.maxSpeed

/-- Body of RVOModel.appendAgentConstraint up to the final push: the
pair (direction, u) computed for an agent/neighbor pair.  The source
initialises both to Vector2.zero and overwrites them in each branch. -/
def constraintDirU (sqrt : F → F) (agent other : Agent F)
    (invTimeHorizon dt : F) : Vec F × Vec F :=
  let relativePosition := other.position.sub agent.position
  let relativeVelocity := agent.velocity.sub other.velocity
  let distSq := absSq relativePosition
  let combinedRadius := agent.radius + other.radius
  let combinedRadiusSq := combinedRadius * combinedRadius
  if combinedRadiusSq < distSq then
    let w := relativeVelocity.sub (relativePosition.mult invTimeHorizon)
    let wLengthSq := absSq w
    let dotProduct := w.dot relativePosition
    if dotProduct < 0 ∧ combinedRadiusSq * wLengthSq < dotProduct * dotProduct then
      let wLength := sqrt wLengthSq
      let unitW :=
        if EPSILON < wLength then w.mult (1 / wLength)
        else normalize sqrt relativePosition
      (perp unitW, unitW.mult (combinedRadius * invTimeHorizon - wLength))
    else
      let leg := sqrt (max 0 (distSq - combinedRadiusSq))
      let direction0 :=
        if 0 < det relativePosition w then
          (Vec.mk (relativePosition.x * leg - relativePosition.y * combinedRadius)
            (relativePosition.x * combinedRadius + relativePosition.y * leg)).mult
            (1 / distSq)
        else
          (Vec.mk (-relativePosition.x * leg - relativePosition.y * combinedRadius)
            (relativePosition.x * combinedRadius - relativePosition.y * leg)).mult
            (1 / distSq)
      let direction := normalize sqrt direction0
      (direction, (direction.mult (relativeVelocity.dot direction)).sub relativeVelocity)
  else
    let invTimeStep := if 0 < dt then 1 / dt else 0
    let w := relativeVelocity.sub (relativePosition.mult invTimeStep)
    let wLength := sqrt (w.x * w.x + w.y * w.y)
    let unitW :=
      if EPSILON < wLength then w.mult (1 / wLength)
      else normalize sqrt relativePosition
    (perp unitW, unitW.mult (combinedRadius * invTimeStep - wLength))

/-- RVOModel.appendAgentConstraint: the ORCA line pushed for an
agent/neighbor pair (point = agent.velocity + u * 0.5, direction safely
normalized with the fixed fallback). -/
def appendAgentConstraint (sqrt : F → F) (agent other : Agent F)
    (invTimeHorizon dt : F) : Line F :=
  let du := constraintDirU sqrt agent other invTimeHorizon dt
  { point := agent.velocity.add (du.2.mult (1 / 2)),
    direction := ensureDirection sqrt du.1 }

/-- Result record of linearProgram1. -/
structure LP1Result (F : Type*) where
  success : Bool
  result : Vec F
deriving DecidableEq

/-- Loop of RVOModel.linearProgram1: shrink the parametric interval
[tLeft, tRight] on the current line against the first k previously
accepted lines; none signals infeasibility (the early returns of the
source loop). -/
def lp1Interval (lines : List (Line F)) (line : Line F) :
    ℕ → F → F → Option (F × F)
  | 0, tLeft, tRight => some (tLeft, tRight)
  | k + 1, tLeft, tRight =>
    match lp1Interval lines line k tLeft tRight with
    | none => none
    | some (tL, tR) =>
      let li := lines.getD k default
      let denominator := det line.direction li.direction
      let numerator := det li.direction (line.point.sub li.point)
      if |denominator| ≤ EPSILON then
        if numerator < 0 then none else some (tL, tR)
      else
        let t := numerator / denominator
        let p := if 0 ≤ denominator then (tL, min tR t) else (max tL t, tR)
        if p.1 > p.2 then none else some p

/-- RVOModel.linearProgram1: the single-line solve against the speed
disk and the previously accepted lines. -/
def linearProgram1 (sqrt : F → F) (lines : List (Line F)) (lineNo : ℕ)
    (radius : F) (optVelocity : Vec F) (directionOpt : Bool) (result : Vec F) :
    LP1Result F :=
  let line := lines.getD lineNo default
  let dotProduct := line.point.dot line.direction
  let discriminant := dotProduct * dotProduct + radius * radius - absSq line.point
  if discriminant < 0 then ⟨false, result⟩
  else
    let sqrtDiscriminant := sqrt discriminant
    match lp1Interval lines line lineNo (-dotProduct - sqrtDiscriminant)
        (-dotProduct + sqrtDiscriminant) with
    | none => ⟨false, result⟩
    | some (tLeft, tRight) =>
      if directionOpt then
        if 0 < optVelocity.dot line.direction then
          ⟨true, line.point.add (line.direction.mult tRight)⟩
        else
          ⟨true, line.point.add (line.direction.mult tLeft)⟩
      else
        let t := line.direction.dot (optVelocity.sub line.point)
        if t < tLeft then ⟨true, line.point.add (line.direction.mult tLeft)⟩
        else if tRight < t then ⟨true, line.point.add (line.direction.mult tRight)⟩
        else ⟨true, line.point.add (line.direction.mult t)⟩

/-- Result record of linearProgram2. -/
structure LP2Result (F : Type*) where
  lineFail : ℕ
  result : Vec F
deriving DecidableEq

/-- Loop of RVOModel.linearProgram2 from index i on: whenever the
current candidate violates a line, re-solve on that line; on
infeasibility stop with that index and the candidate from before the
call (tempResult of the source). -/
def lp2Loop (sqrt : F → F) (lines : List (Line F)) (radius : F)
    (optVelocity : Vec F) (directionOpt : Bool) (i : ℕ) (result : Vec F) :
    LP2Result F :=
  if h : i < lines.length then
    let li := lines.get ⟨i, h⟩
    if 0 < det li.direction (li.point.sub result) then
      let solved := linearProgram1 sqrt lines i radius optVelocity directionOpt result
      if solved.success then
        lp2Loop sqrt lines radius optVelocity directionOpt (i + 1) solved.result
      else ⟨i, result⟩
    else lp2Loop sqrt lines radius optVelocity directionOpt (i + 1) result
  else ⟨lines.length, result⟩
termination_by lines.length - i

/-- RVOModel.linearProgram2: the incremental full solve. -/
def linearProgram2 (sqrt : F → F) (lines : List (Line F)) (radius : F)
    (optVelocity : Vec F) (directionOpt : Bool) : LP2Result F :=
  let result :=
    if directionOpt then optVelocity.mult radius
    else if radius * radius < absSq optVelocity then
      (normalize sqrt optVelocity).mult radius
    else optVelocity
  lp2Loop sqrt lines radius optVelocity directionOpt 0 result

/-- Body of the inner loop of RVOModel.linearProgram3 for one earlier
line index j: none when the loop continues (parallel, same-direction
pair), otherwise the projected line that is pushed. -/
def projLineAt (sqrt : F → F) (lines : List (Line F)) (line : Line F)
    (j : ℕ) : Option (Line F) :=
  let other := lines.getD j default
  let determinant := det line.direction other.direction
  if |determinant| ≤ EPSILON then
    if 0 < line.direction.dot other.direction then none
    else
      some { point := (line.point.add other.point).mult (1 / 2),
             direction := normalize sqrt (other.direction.sub line.direction) }
  else
    some { point := line.point.add (line.direction.mult
             (det other.direction (line.point.sub other.point) / determinant)),
           direction := normalize sqrt (other.direction.sub line.direction) }

/-- Inner loop of RVOModel.linearProgram3: the reduced constraint set
built for the violating line (lines[i]): the obstacle-line prefix,
followed by one projected line for every previously processed agent
line, except that parallel same-direction pairs are skipped. -/
def projLinesFor (sqrt : F → F) (lines : List (Line F))
    (numObstLines i : ℕ) (line : Line F) : List (Line F) :=
  (lines.take numObstLines) ++
    ((List.range' numObstLines (i - numObstLines)).filterMap
      (projLineAt sqrt lines line))

/-- Loop of RVOModel.linearProgram3 from line i on, carrying the
current result and the running violation distance. -/
def lp3Loop (sqrt : F → F) (lines : List (Line F)) (numObstLines : ℕ)
    (radius : F) (i : ℕ) (result : Vec F) (distance : F) : Vec F :=
  if h : i < lines.length then
    let line := lines.get ⟨i, h⟩
    if distance < det line.direction (line.point.sub result) then
      let projLines := projLinesFor sqrt lines numObstLines i line
      let tempResult := result
      let lp2 := linearProgram2 sqrt projLines radius (perp line.direction) true
      let result1 := if lp2.lineFail < projLines.length then tempResult else lp2.result
      lp3Loop sqrt lines numObstLines radius (i + 1) result1
        (det line.direction (line.point.sub result1))
    else lp3Loop sqrt lines numObstLines radius (i + 1) result distance
  else result
termination_by lines.length - i

/-- RVOModel.linearProgram3: the guaranteed-feasible fallback entered
when the full solve fails at some line. -/
def linearProgram3 (sqrt : F → F) (lines : List (Line F))
    (numObstLines beginLine : ℕ) (radius : F) (initialResult : Vec F) : Vec F :=
  lp3Loop sqrt lines numObstLines radius beginLine initialResult 0

/-- Per-agent body of the velocity map of RVOModel.update: the pair
(preferredVelocity, new velocity) computed for agent index i. -/
def computeNewVelocity (sqrt : F → F) (agents : List (Agent F))
    (table : List (List (NeighborRef F))) (invTimeHorizon dt : F) (i : ℕ) :
    Vec F × Vec F :=
  let agent := agents.getD i default
  let preferred := computePreferredVelocity sqrt agent
  let neighbors := table.getD i []
  let lines := neighbors.map fun nb =>
    appendAgentConstraint sqrt agent (agents.getD nb.index default) invTimeHorizon dt
  let solved := linearProgram2 sqrt lines agent.maxSpeed preferred false
  if solved.lineFail < lines.length then
    (preferred,
      limit sqrt
        (linearProgram3 sqrt lines 0 solved.lineFail agent.maxSpeed solved.result)
        agent.maxSpeed)
  else (preferred, limit sqrt solved.result agent.maxSpeed)

/-- Squared neighbor radius used by a tick:
((params.neighborRadius ?? 4) * pixelsPerMeter)^2. -/
def neighborRadiusSqOf (p : Params F) : F :=
  let prefNeighborRadius := (p.neighborRadius.getD 4) * pixelsPerMeter
  prefNeighborRadius * prefNeighborRadius

/-- Inverse time horizon used by a tick:
1 / max (params.timeHorizon ?? 2.5) 0.2. -/
def invTimeHorizonOf (p : Params F) : F :=
  1 / max (p.timeHorizon.getD (5 / 2)) (1 / 5)

/-- First phase of RVOModel.update: the newVelocities buffer (paired
with the preferred velocities stored on the agents), computed for every
agent from the same pre-tick agent list. -/
def velocityPhase (sqrt : F → F) (p : Params F) (dt : F)
    (agents : List (Agent F)) : List (Vec F × Vec F) :=
  let table := buildNeighborTable agents (neighborRadiusSqOf p)
  (List.range agents.length).map
    (computeNewVelocity sqrt agents table (invTimeHorizonOf p) dt)

/-- Second phase of RVOModel.update: store every buffered velocity and
integrate every position forward by velocity * dt. -/
def applyPhase (dt : F) (agents : List (Agent F)) (pv : List (Vec F × Vec F)) :
    List (Agent F) :=
  agents.zipWith
    (fun a p =>
      { a with preferredVelocity := p.1, velocity := p.2,
               position := a.position.add (p.2.mult dt) })
    pv

/-- Agent-list transformation of one advancing tick of RVOModel.update:
goal swapping, then the two-phase velocity computation and integration
with the clamped time step. -/
def updateAgents (sqrt : F → F) (p : Params F) (agents : List (Agent F))
    (deltaTime : F) : List (Agent F) :=
  let dt := min deltaTime (1 / 20)
  let agents1 := agents.map (swapGoalIfNeeded sqrt)
  applyPhase dt agents1 (velocityPhase sqrt p dt agents1)

/-- RVOModel.update: no-op when deltaTime ≤ 0 or the agent set is
empty, otherwise one advancing tick. -/
def update (sqrt : F → F) (s : RVOState F) (deltaTime : F) : RVOState F :=
  if deltaTime ≤ 0 ∨ s.agents.length = 0 then s
  else { s with agents := updateAgents sqrt s.params s.agents deltaTime }

/-! ### Basic lemmas about the vector primitive and the square root -/

theorem absSq_nonneg (v : Vec F) : 0 ≤ absSq v :=
  add_nonneg (mul_self_nonneg _) (mul_self_nonneg _)

theorem goodSqrt_sqrt_eq {sqrt : F → F} (hs : GoodSqrt sqrt) {a x : F}
    (ha : 0 ≤ a) (hx : a * a = x) : sqrt x = a := by
  have h0 : 0 ≤ x := hx ▸ mul_self_nonneg a
  obtain ⟨h1, h2⟩ := hs x h0
  apply le_antisymm <;> nlinarith

theorem mag_nonneg {sqrt : F → F} (hs : GoodSqrt sqrt) (v : Vec F) :
    0 ≤ mag sqrt v :=
  (hs _ (absSq_nonneg v)).1

theorem mag_mul_self {sqrt : F → F} (hs : GoodSqrt sqrt) (v : Vec F) :
    mag sqrt v * mag sqrt v = absSq v :=
  (hs _ (absSq_nonneg v)).2

theorem mag_limit_le {sqrt : F → F} (hs : GoodSqrt sqrt) (v : Vec F) {m : F}
    (hm : 0 ≤ m) : mag sqrt (limit sqrt v m) ≤ m := by
  unfold limit
  by_cases h : mag sqrt v ≤ m
  · rwa [if_pos h]
  · rw [if_neg h]
    push_neg at h
    have hmagne : mag sqrt v ≠ 0 := ne_of_gt (lt_of_le_of_lt hm h)
    have habs : v.x * v.x + v.y * v.y = mag sqrt v * mag sqrt v := by
      have := mag_mul_self hs v
      unfold absSq at this
      exact this.symm
    unfold normalize
    rw [if_neg hmagne]
    have hval : ((v.mult (1 / mag sqrt v)).mult m).x * ((v.mult (1 / mag sqrt v)).mult m).x
        + ((v.mult (1 / mag sqrt v)).mult m).y * ((v.mult (1 / mag sqrt v)).mult m).y
        = m * m := by
      simp only [Vec.mult]
      field_simp
      linear_combination (m * m) * habs
    have hmageq : mag sqrt ((v.mult (1 / mag sqrt v)).mult m) = m := by
      unfold mag
      exact goodSqrt_sqrt_eq hs hm hval.symm
    rw [hmageq]

/-! ### List indexing helpers -/

theorem getD_map_lt {α β : Type*} (f : α → β) (l : List α) (i : ℕ)
    (h : i < l.length) (d : β) (da : α) : (l.map f).getD i d = f (l.getD i da) := by
  rw [List.getD_eq_getElem _ d (by simpa using h), List.getD_eq_getElem _ da h]
  simp

theorem getD_zipWith_lt {α β γ : Type*} (f : α → β → γ) (as : List α) (bs : List β)
    (i : ℕ) (ha : i < as.length) (hb : i < bs.length) (d : γ) (da : α) (db : β) :
    (List.zipWith f as bs).getD i d = f (as.getD i da) (bs.getD i db) := by
  rw [List.getD_eq_getElem _ d (by simp [List.length_zipWith]; omega),
    List.getD_eq_getElem _ da ha, List.getD_eq_getElem _ db hb]
  simp [List.getElem_zipWith]

theorem getD_range_lt (n i : ℕ) (h : i < n) (d : ℕ) : (List.range n).getD i d = i := by
  rw [List.getD_eq_getElem _ d (by simpa using h)]
  simp

theorem getD_mem_of_lt {α : Type*} (l : List α) (i : ℕ) (h : i < l.length) (d : α) :
    l.getD i d ∈ l := by
  rw [List.getD_eq_getElem l d h]
  exact List.getElem_mem h

/-! ### Shape lemmas about update -/

theorem swapGoalIfNeeded_position (sqrt : F → F) (a : Agent F) :
    (swapGoalIfNeeded sqrt a).position = a.position := by
  unfold swapGoalIfNeeded
  by_cases h : dist sqrt a.position (anchor a) < max (a.radius * (4 / 5)) 6 <;> simp [h]

theorem swapGoalIfNeeded_velocity (sqrt : F → F) (a : Agent F) :
    (swapGoalIfNeeded sqrt a).velocity = a.velocity := by
  unfold swapGoalIfNeeded
  by_cases h : dist sqrt a.position (anchor a) < max (a.radius * (4 / 5)) 6 <;> simp [h]

theorem swapGoalIfNeeded_maxSpeed (sqrt : F → F) (a : Agent F) :
    (swapGoalIfNeeded sqrt a).maxSpeed = a.maxSpeed := by
  unfold swapGoalIfNeeded
  by_cases h : dist sqrt a.position (anchor a) < max (a.radius * (4 / 5)) 6 <;> simp [h]

theorem length_velocityPhase (sqrt : F → F) (p : Params F) (dt : F)
    (agents : List (Agent F)) : (velocityPhase sqrt p dt agents).length = agents.length := by
  simp [velocityPhase]

theorem length_updateAgents (sqrt : F → F) (p : Params F) (agents : List (Agent F))
    (deltaTime : F) : (updateAgents sqrt p agents deltaTime).length = agents.length := by
  simp [updateAgents, applyPhase, velocityPhase, List.length_zipWith]

theorem update_no_advance (sqrt : F → F) (s : RVOState F) (deltaTime : F)
    (h : deltaTime ≤ 0 ∨ s.agents = []) : update sqrt s deltaTime = s := by
  have h' : deltaTime ≤ 0 ∨ s.agents.length = 0 := by
    rcases h with h | h
    · exact Or.inl h
    · exact Or.inr (by simp [h])
  simp only [update]
  rw [if_pos h']

theorem update_advance (sqrt : F → F) (s : RVOState F) (deltaTime : F)
    (h1 : 0 < deltaTime) (h2 : s.agents ≠ []) :
    update sqrt s deltaTime =
      { s with agents := updateAgents sqrt s.params s.agents deltaTime } := by
  have h' : ¬(deltaTime ≤ 0 ∨ s.agents.length = 0) := by
    push_neg
    exact ⟨h1, by simpa [List.length_eq_zero] using h2⟩
  simp only [update]
  rw [if_neg h']

theorem length_update_agents (sqrt : F → F) (s : RVOState F) (deltaTime : F) :
    (update sqrt s deltaTime).agents.length = s.agents.length := by
  simp only [update]
  split
  · rfl
  · exact length_updateAgents sqrt s.params s.agents deltaTime

/-- Element form of the first-phase buffer. -/
theorem velocityPhase_getD (sqrt : F → F) (p : Params F) (dt : F)
    (agents : List (Agent F)) (i : ℕ) (hi : i < agents.length) (d : Vec F × Vec F) :
    (velocityPhase sqrt p dt agents).getD i d =
      computeNewVelocity sqrt agents
        (buildNeighborTable agents (neighborRadiusSqOf p)) (invTimeHorizonOf p) dt i := by
  unfold velocityPhase
  rw [getD_map_lt _ _ i (by simpa using hi) _ 0, getD_range_lt _ i hi]

/-- Element form of one advancing tick: agent i of the post-state is
the goal-swapped pre-tick agent with the buffered velocity stored and
the position integrated by the clamped time step. -/
theorem updateAgents_getD (sqrt : F → F) (p : Params F) (agents : List (Agent F))
    (deltaTime : F) (i : ℕ) (hi : i < agents.length) :
    (updateAgents sqrt p agents deltaTime).getD i default =
      (fun a1 pvi =>
        { a1 with preferredVelocity := pvi.1, velocity := pvi.2,
                  position := a1.position.add (pvi.2.mult (min deltaTime (1 / 20))) })
        ((agents.map (swapGoalIfNeeded sqrt)).getD i default)
        (computeNewVelocity sqrt (agents.map (swapGoalIfNeeded sqrt))
          (buildNeighborTable (agents.map (swapGoalIfNeeded sqrt)) (neighborRadiusSqOf p))
          (invTimeHorizonOf p) (min deltaTime (1 / 20)) i) := by
  unfold updateAgents applyPhase
  rw [getD_zipWith_lt _ _ _ i (by simpa using hi)
    (by rw [length_velocityPhase]; simpa using hi) default default (⟨0, 0⟩, ⟨0, 0⟩)]
  rw [velocityPhase_getD sqrt p _ _ i (by simpa using hi)]

/-- Both branches of the per-agent solve end in a limit to the
agent's maximum speed. -/
theorem computeNewVelocity_snd_eq (sqrt : F → F) (agents : List (Agent F))
    (table : List (List (NeighborRef F))) (invTimeHorizon dt : F) (i : ℕ) :
    ∃ z : Vec F, (computeNewVelocity sqrt agents table invTimeHorizon dt i).2
      = limit sqrt z ((agents.getD i default).maxSpeed) := by
  unfold computeNewVelocity
  dsimp only
  split
  · exact ⟨_, rfl⟩
  · exact ⟨_, rfl⟩

/-- Real.sqrt is an exact square root on nonnegative reals. -/
theorem goodSqrt_real : GoodSqrt Real.sqrt :=
  fun x hx => ⟨Real.sqrt_nonneg x, Real.mul_self_sqrt hx⟩

/-- C2: for every agent, every call to update with deltaTime > 0 and a
non-empty agent set leaves that agent with a velocity whose magnitude
is at most its maxSpeed.  (Over the exact-arithmetic model the bound
holds exactly, hence in particular within any floating tolerance ε;
both solver branches of the source end in Vector2.limit(maxSpeed).) -/
theorem C2_update_velocity_le_maxSpeed (sqrt : F → F) (hs : GoodSqrt sqrt)
    (s : RVOState F) (deltaTime : F) (hd : 0 < deltaTime) (hne : s.agents ≠ [])
    (hmax : ∀ a ∈ s.agents, 0 ≤ a.maxSpeed) (i : ℕ) (hi : i < s.agents.length) :
    mag sqrt (((update sqrt s deltaTime).agents.getD i default).velocity)
      ≤ ((update sqrt s deltaTime).agents.getD i default).maxSpeed := by
  rw [update_advance sqrt s deltaTime hd hne]
  dsimp only
  rw [updateAgents_getD sqrt s.params s.agents deltaTime i hi]
  dsimp only
  obtain ⟨z, hz⟩ := computeNewVelocity_snd_eq sqrt (s.agents.map (swapGoalIfNeeded sqrt))
    (buildNeighborTable (s.agents.map (swapGoalIfNeeded sqrt)) (neighborRadiusSqOf s.params))
    (invTimeHorizonOf s.params) (min deltaTime (1 / 20)) i
  rw [hz]
  have hmax1 : 0 ≤ ((s.agents.map (swapGoalIfNeeded sqrt)).getD i default).maxSpeed := by
    rw [getD_map_lt _ _ i hi _ default, swapGoalIfNeeded_maxSpeed]
    exact hmax _ (getD_mem_of_lt s.agents i hi default)
  exact mag_limit_le hs z hmax1

/-- Concrete one-agent real state used by witnesses. -/
def witnessAgentR : Agent ℝ :=
  { id := "a", position := ⟨0, 0⟩, velocity := ⟨0, 0⟩, preferredVelocity := ⟨0, 0⟩,
    radius := 1, preferredSpeed := 1, maxSpeed := 2, anchors := (⟨0, 0⟩, ⟨3, 4⟩),
    headingIndex := 0, color := "c" }

/-- Concrete one-agent real state used by witnesses. -/
def witnessStateR : RVOState ℝ := ⟨⟨none, none⟩, [witnessAgentR]⟩

/-- Concrete one-agent rational agent used by witnesses. -/
def witnessAgentQ : Agent ℚ :=
  { id := "a", position := ⟨0, 0⟩, velocity := ⟨0, 0⟩, preferredVelocity := ⟨0, 0⟩,
    radius := 1, preferredSpeed := 1, maxSpeed := 2, anchors := (⟨0, 0⟩, ⟨0, 0⟩),
    headingIndex := 0, color := "c" }

/-- Concrete one-agent rational state used by witnesses. -/
def witnessStateQ : RVOState ℚ := ⟨⟨none, none⟩, [witnessAgentQ]⟩

/-- Concrete empty rational state used by witnesses. -/
def emptyStateQ : RVOState ℚ := ⟨⟨none, none⟩, []⟩

/-- Witness for C2 at a concrete one-agent real state. -/
theorem C2_witness :
    mag Real.sqrt (((update Real.sqrt witnessStateR 1).agents.getD 0 default).velocity)
      ≤ ((update Real.sqrt witnessStateR 1).agents.getD 0 default).maxSpeed :=
  C2_update_velocity_le_maxSpeed Real.sqrt goodSqrt_real witnessStateR 1 one_pos
    (by simp [witnessStateR])
    (by
      intro a ha
      simp only [witnessStateR, List.mem_singleton] at ha
      subst ha
      norm_num [witnessAgentR])
    0 (by simp [witnessStateR])

/-- C9: update with deltaTime ≤ 0 or an empty agent set returns the
state unchanged (every field of every agent included); an advancing
tick integrates every position by the stored velocity times
min deltaTime 0.05, the internally clamped time step. -/
theorem C9_noop_and_clamped_step (sqrt : F → F) (s : RVOState F) (deltaTime : F) :
    ((deltaTime ≤ 0 ∨ s.agents = []) → update sqrt s deltaTime = s) ∧
    (0 < deltaTime → s.agents ≠ [] → ∀ i : ℕ, i < s.agents.length →
      ((update sqrt s deltaTime).agents.getD i default).position
        = ((s.agents.getD i default).position).add
            ((((update sqrt s deltaTime).agents.getD i default).velocity).mult
              (min deltaTime (1 / 20)))) := by
  constructor
  · exact update_no_advance sqrt s deltaTime
  · intro h1 h2 i hi
    rw [update_advance sqrt s deltaTime h1 h2]
    dsimp only
    rw [updateAgents_getD sqrt s.params s.agents deltaTime i hi]
    dsimp only
    rw [getD_map_lt _ _ i hi _ default, swapGoalIfNeeded_position]

/-- Witness for C9: the no-op case at deltaTime = 0 and the advancing
case at a concrete one-agent rational state. -/
theorem C9_witness :
    (update (fun q => q) emptyStateQ 0 = emptyStateQ) ∧
    (((update (fun q => q) witnessStateQ 1).agents.getD 0 default).position
      = ((witnessStateQ.agents.getD 0 default).position).add
          ((((update (fun q => q) witnessStateQ 1).agents.getD 0 default).velocity).mult
            (min 1 (1 / 20)))) :=
  ⟨(C9_noop_and_clamped_step (fun q => q) emptyStateQ 0).1 (Or.inl le_rfl),
    (C9_noop_and_clamped_step (fun q => q) witnessStateQ 1).2 one_pos
      (by simp [witnessStateQ]) 0 (by simp [witnessStateQ])⟩

/-- C10: update is deterministic: equal states and equal deltaTime give
equal results; the tick consults no source of randomness (the embedded
tick is a pure function of the state and the time step). -/
theorem C10_update_deterministic (sqrt : F → F) (s1 s2 : RVOState F) (d1 d2 : F)
    (hstate : s1 = s2) (hdelta : d1 = d2) : update sqrt s1 d1 = update sqrt s2 d2 := by
  rw [hstate, hdelta]

/-- Witness for C10 at a concrete rational state. -/
theorem C10_witness :
    update (fun q => q) witnessStateQ 1 = update (fun q => q) witnessStateQ 1 :=
  C10_update_deterministic (fun q => q) witnessStateQ witnessStateQ 1 1 rfl rfl

/-! ### C8: the two-phase compute-then-apply structure of update -/

/-- Projection of an agent to the fields the velocity phase may read:
everything except the derived preferredVelocity field and the display
attributes. -/
def stripDerived (a : Agent F) : Agent F :=
  { a with preferredVelocity := ⟨0, 0⟩, id := "", color := "" }

/-- Function form of getD through a map, valid at every index. -/
theorem getD_map_comm {α β : Type*} (f : α → β) (l : List α) (i : ℕ) (d : α) :
    f (l.getD i d) = (l.map f).getD i (f d) := by
  induction l generalizing i with
  | nil => rfl
  | cons a l ih =>
    cases i with
    | zero => rfl
    | succ n => simp only [List.getD_cons_succ, List.map_cons]; exact ih n

/-- Neighbor search reads only agent count and positions. -/
theorem buildNeighborTable_congr (as bs : List (Agent F)) (radiusSq : F)
    (hlen : as.length = bs.length)
    (hpos : as.map (fun a => a.position) = bs.map (fun a => a.position)) :
    buildNeighborTable as radiusSq = buildNeighborTable bs radiusSq := by
  have hgd : ∀ i : ℕ, (as.getD i default).position = (bs.getD i default).position := by
    intro i
    have h1 := getD_map_comm (fun a : Agent F => a.position) as i default
    have h2 := getD_map_comm (fun a : Agent F => a.position) bs i default
    simp only at h1 h2
    rw [h1, h2, hpos]
  unfold buildNeighborTable
  rw [hlen]
  congr 1
  funext table ij
  unfold neighborStep
  simp only [hgd]

/-- The preferred-velocity computation reads only non-derived fields. -/
theorem computePreferredVelocity_strip (sqrt : F → F) (a : Agent F) :
    computePreferredVelocity sqrt (stripDerived a) = computePreferredVelocity sqrt a := rfl

/-- The constraint builder reads only non-derived fields of both agents. -/
theorem appendAgentConstraint_strip (sqrt : F → F) (a b : Agent F)
    (invTimeHorizon dt : F) :
    appendAgentConstraint sqrt (stripDerived a) (stripDerived b) invTimeHorizon dt
      = appendAgentConstraint sqrt a b invTimeHorizon dt := rfl

/-- The per-agent solve reads only non-derived fields of the agents. -/
theorem computeNewVelocity_strip (sqrt : F → F) (as bs : List (Agent F))
    (table : List (List (NeighborRef F))) (invTimeHorizon dt : F) (i : ℕ)
    (hall : ∀ j : ℕ, stripDerived (as.getD j default) = stripDerived (bs.getD j default)) :
    computeNewVelocity sqrt as table invTimeHorizon dt i
      = computeNewVelocity sqrt bs table invTimeHorizon dt i := by
  have h1 : computePreferredVelocity sqrt (as.getD i default)
      = computePreferredVelocity sqrt (bs.getD i default) := by
    rw [← computePreferredVelocity_strip sqrt (as.getD i default), hall i,
      computePreferredVelocity_strip]
  have h2 : (as.getD i default).maxSpeed = (bs.getD i default).maxSpeed := by
    have := congrArg Agent.maxSpeed (hall i)
    simpa [stripDerived] using this
  have h3 : (fun nb : NeighborRef F =>
        appendAgentConstraint sqrt (as.getD i default) (as.getD nb.index default)
          invTimeHorizon dt)
      = (fun nb : NeighborRef F =>
        appendAgentConstraint sqrt (bs.getD i default) (bs.getD nb.index default)
          invTimeHorizon dt) := by
    funext nb
    rw [← appendAgentConstraint_strip sqrt (as.getD i default) (as.getD nb.index default),
      hall i, hall nb.index, appendAgentConstraint_strip]
  unfold computeNewVelocity
  simp only [h1, h2, h3]

/-- The whole first-phase buffer reads only non-derived fields. -/
theorem velocityPhase_strip (sqrt : F → F) (p : Params F) (dt : F)
    (as bs : List (Agent F)) (h : as.map stripDerived = bs.map stripDerived) :
    velocityPhase sqrt p dt as = velocityPhase sqrt p dt bs := by
  have hlen : as.length = bs.length := by
    have := congrArg List.length h
    simpa using this
  have hall : ∀ j : ℕ, stripDerived (as.getD j default) = stripDerived (bs.getD j default) := by
    intro j
    rw [getD_map_comm stripDerived as j default, getD_map_comm stripDerived bs j default, h]
  have hpos : as.map (fun a => a.position) = bs.map (fun a => a.position) := by
    have h1 : as.map (fun a => a.position) = (as.map stripDerived).map (fun a => a.position) := by
      rw [List.map_map]; rfl
    have h2 : bs.map (fun a => a.position) = (bs.map stripDerived).map (fun a => a.position) := by
      rw [List.map_map]; rfl
    rw [h1, h2, h]
  have hcnv : computeNewVelocity sqrt as (buildNeighborTable bs (neighborRadiusSqOf p))
      (invTimeHorizonOf p) dt
      = computeNewVelocity sqrt bs (buildNeighborTable bs (neighborRadiusSqOf p))
        (invTimeHorizonOf p) dt :=
    funext fun i => computeNewVelocity_strip sqrt as bs _ _ dt i hall
  unfold velocityPhase
  rw [hlen, buildNeighborTable_congr as bs _ hlen hpos]
  simp only [hcnv]

/-- C8: one advancing tick decomposes into a strict two-phase buffer:
the goal-swap phase leaves every position and velocity unchanged, the
whole newVelocities buffer is computed by the first phase from the
shared pre-application agent list alone (and reads none of the fields
mutated during that phase, in particular no stored preferredVelocity),
and only the second phase writes velocities and positions. -/
theorem C8_two_phase_buffer (sqrt : F → F) (s : RVOState F) (deltaTime : F)
    (h1 : 0 < deltaTime) (h2 : s.agents ≠ []) :
    ((update sqrt s deltaTime).agents
      = applyPhase (min deltaTime (1 / 20)) (s.agents.map (swapGoalIfNeeded sqrt))
          (velocityPhase sqrt s.params (min deltaTime (1 / 20))
            (s.agents.map (swapGoalIfNeeded sqrt)))) ∧
    (∀ a ∈ s.agents, (swapGoalIfNeeded sqrt a).position = a.position ∧
      (swapGoalIfNeeded sqrt a).velocity = a.velocity) ∧
    (∀ agents2 : List (Agent F),
      (s.agents.map (swapGoalIfNeeded sqrt)).map stripDerived = agents2.map stripDerived →
      velocityPhase sqrt s.params (min deltaTime (1 / 20))
          (s.agents.map (swapGoalIfNeeded sqrt))
        = velocityPhase sqrt s.params (min deltaTime (1 / 20)) agents2) := by
  refine ⟨?_, ?_, ?_⟩
  · rw [update_advance sqrt s deltaTime h1 h2]
    rfl
  · intro a _
    exact ⟨swapGoalIfNeeded_position sqrt a, swapGoalIfNeeded_velocity sqrt a⟩
  · intro agents2 h
    exact velocityPhase_strip sqrt s.params _ _ agents2 h

/-- Witness for C8 at a concrete one-agent rational state. -/
theorem C8_witness :
    ((update (fun q => q) witnessStateQ 1).agents
      = applyPhase (min 1 (1 / 20)) (witnessStateQ.agents.map (swapGoalIfNeeded fun q => q))
          (velocityPhase (fun q => q) witnessStateQ.params (min 1 (1 / 20))
            (witnessStateQ.agents.map (swapGoalIfNeeded fun q => q)))) ∧
    (∀ a ∈ witnessStateQ.agents,
      (swapGoalIfNeeded (fun q => q) a).position = a.position ∧
      (swapGoalIfNeeded (fun q => q) a).velocity = a.velocity) ∧
    (∀ agents2 : List (Agent ℚ),
      (witnessStateQ.agents.map (swapGoalIfNeeded fun q => q)).map stripDerived
        = agents2.map stripDerived →
      velocityPhase (fun q => q) witnessStateQ.params (min 1 (1 / 20))
          (witnessStateQ.agents.map (swapGoalIfNeeded fun q => q))
        = velocityPhase (fun q => q) witnessStateQ.params (min 1 (1 / 20)) agents2) :=
  C8_two_phase_buffer (fun q => q) witnessStateQ 1 one_pos (by simp [witnessStateQ])

/-! ### C6: the constraint direction is unit length or the fixed fallback -/

theorem EPSILON_pos : (0 : F) < EPSILON := by
  unfold EPSILON
  norm_num

/-- Normalizing a vector of positive squared magnitude yields a vector
of squared magnitude exactly 1 (with an exact square root). -/
theorem absSq_normalize_eq_one {sqrt : F → F} (hs : GoodSqrt sqrt) (v : Vec F)
    (hv : 0 < absSq v) : absSq (normalize sqrt v) = 1 := by
  have hmag : mag sqrt v * mag sqrt v = absSq v := mag_mul_self hs v
  have hmagne : mag sqrt v ≠ 0 := by
    intro h0
    rw [h0, mul_zero] at hmag
    rw [← hmag] at hv
    exact lt_irrefl 0 hv
  unfold normalize
  rw [if_neg hmagne]
  unfold absSq Vec.mult at *
  dsimp only
  field_simp
  linarith [hmag]

/-- C6: the constraint builder is a total function (in particular a
pair with zero relative displacement is in its domain), and the pushed
constraint's direction is exactly unit length, or the fixed fallback
unit vector (1, 0) exactly when the raw computed direction is
degenerate (squared magnitude at most 1e-5). -/
theorem C6_constraint_direction_unit (sqrt : F → F) (hs : GoodSqrt sqrt)
    (agent other : Agent F) (invTimeHorizon dt : F) :
    (absSq (constraintDirU sqrt agent other invTimeHorizon dt).1 ≤ EPSILON ∧
      (appendAgentConstraint sqrt agent other invTimeHorizon dt).direction = ⟨1, 0⟩) ∨
    (EPSILON < absSq (constraintDirU sqrt agent other invTimeHorizon dt).1 ∧
      absSq ((appendAgentConstraint sqrt agent other invTimeHorizon dt).direction) = 1) := by
  have hdir : (appendAgentConstraint sqrt agent other invTimeHorizon dt).direction
      = ensureDirection sqrt (constraintDirU sqrt agent other invTimeHorizon dt).1 := rfl
  by_cases h : absSq (constraintDirU sqrt agent other invTimeHorizon dt).1 ≤ EPSILON
  · left
    refine ⟨h, ?_⟩
    rw [hdir]
    unfold ensureDirection
    rw [if_pos h]
  · right
    push_neg at h
    refine ⟨h, ?_⟩
    rw [hdir]
    unfold ensureDirection
    rw [if_neg (not_le.mpr h)]
    exact absSq_normalize_eq_one hs _ (lt_trans EPSILON_pos h)

/-- Witness for C6 at a zero-relative-displacement real pair (both
agents share a position), showing that input is handled. -/
theorem C6_witness :
    (absSq (constraintDirU Real.sqrt witnessAgentR witnessAgentR (2 / 5) (1 / 20)).1
        ≤ EPSILON ∧
      (appendAgentConstraint Real.sqrt witnessAgentR witnessAgentR (2 / 5)
        (1 / 20)).direction = ⟨1, 0⟩) ∨
    (EPSILON < absSq (constraintDirU Real.sqrt witnessAgentR witnessAgentR (2 / 5) (1 / 20)).1 ∧
      absSq ((appendAgentConstraint Real.sqrt witnessAgentR witnessAgentR (2 / 5)
        (1 / 20)).direction) = 1) :=
  C6_constraint_direction_unit Real.sqrt goodSqrt_real witnessAgentR witnessAgentR (2 / 5) (1 / 20)

/-! ### C4: the single-line solve with no prior constraints -/

/-- Quadratic discriminant of a line against the speed disk, as in
linearProgram1. -/
def lineDiscriminant (L : Line F) (radius : F) : F :=
  (L.point.dot L.direction) * (L.point.dot L.direction) + radius * radius - absSq L.point

/-- Left end of the parametric interval of the line inside the disk. -/
def tLeftOf (sqrt : F → F) (L : Line F) (radius : F) : F :=
  -(L.point.dot L.direction) - sqrt (lineDiscriminant L radius)

/-- Right end of the parametric interval of the line inside the disk. -/
def tRightOf (sqrt : F → F) (L : Line F) (radius : F) : F :=
  -(L.point.dot L.direction) + sqrt (lineDiscriminant L radius)

/-- Closed form of linearProgram1 on a single line with no prior
constraints, in point-optimization mode. -/
theorem lp1_zero_shape (sqrt : F → F) (L : Line F) (radius : F)
    (optVelocity r0 : Vec F) :
    linearProgram1 sqrt [L] 0 radius optVelocity false r0 =
      if lineDiscriminant L radius < 0 then ⟨false, r0⟩
      else if L.direction.dot (optVelocity.sub L.point) < tLeftOf sqrt L radius then
        ⟨true, L.point.add (L.direction.mult (tLeftOf sqrt L radius))⟩
      else if tRightOf sqrt L radius < L.direction.dot (optVelocity.sub L.point) then
        ⟨true, L.point.add (L.direction.mult (tRightOf sqrt L radius))⟩
      else ⟨true, L.point.add (L.direction.mult (L.direction.dot (optVelocity.sub L.point)))⟩ :=
  rfl

set_option maxHeartbeats 2000000 in
/-- C4: for a single constraint line with no prior constraints, in
point-optimization mode: a negative discriminant reports infeasibility
with the candidate unchanged, and indeed no point of the line then
meets the speed disk; a nonnegative discriminant succeeds with the
projection of the preferred velocity onto the line clamped to
[tLeft, tRight], which is the point of that parametric interval closest
to the preferred velocity, and that interval is exactly the part of the
line inside the disk of radius maxSpeed. -/
theorem C4_lp1_no_prior (sqrt : F → F) (hs : GoodSqrt sqrt) (L : Line F)
    (radius : F) (optVelocity r0 : Vec F) (hunit : absSq L.direction = 1) :
    (lineDiscriminant L radius < 0 →
      linearProgram1 sqrt [L] 0 radius optVelocity false r0 = ⟨false, r0⟩ ∧
      ∀ u : F, radius * radius < absSq (L.point.add (L.direction.mult u))) ∧
    (0 ≤ lineDiscriminant L radius →
      (linearProgram1 sqrt [L] 0 radius optVelocity false r0).success = true ∧
      (linearProgram1 sqrt [L] 0 radius optVelocity false r0).result
        = L.point.add (L.direction.mult
            (if L.direction.dot (optVelocity.sub L.point) < tLeftOf sqrt L radius then
              tLeftOf sqrt L radius
             else if tRightOf sqrt L radius < L.direction.dot (optVelocity.sub L.point) then
              tRightOf sqrt L radius
             else L.direction.dot (optVelocity.sub L.point))) ∧
      (∀ u : F, tLeftOf sqrt L radius ≤ u → u ≤ tRightOf sqrt L radius →
        absSq (optVelocity.sub ((linearProgram1 sqrt [L] 0 radius optVelocity false r0).result))
          ≤ absSq (optVelocity.sub (L.point.add (L.direction.mult u)))) ∧
      (∀ u : F, (tLeftOf sqrt L radius ≤ u ∧ u ≤ tRightOf sqrt L radius) ↔
        absSq (L.point.add (L.direction.mult u)) ≤ radius * radius)) := by
  have hunit' : L.direction.x * L.direction.x + L.direction.y * L.direction.y = 1 := hunit
  have hexp : ∀ u : F, absSq (L.point.add (L.direction.mult u))
      = absSq L.point + 2 * u * (L.point.dot L.direction) + u * u := by
    intro u
    unfold absSq Vec.add Vec.mult Vec.dot
    linear_combination (u * u) * hunit'
  have hexp2 : ∀ u : F, absSq (optVelocity.sub (L.point.add (L.direction.mult u)))
      = absSq (optVelocity.sub L.point)
        - 2 * u * (L.direction.dot (optVelocity.sub L.point)) + u * u := by
    intro u
    unfold absSq Vec.sub Vec.add Vec.mult Vec.dot
    linear_combination (u * u) * hunit'
  constructor
  · intro hd
    have heq : linearProgram1 sqrt [L] 0 radius optVelocity false r0 = ⟨false, r0⟩ := by
      rw [lp1_zero_shape, if_pos hd]
    refine ⟨heq, ?_⟩
    intro u
    have he := hexp u
    have hd' : (L.point.dot L.direction) * (L.point.dot L.direction) + radius * radius
        - absSq L.point < 0 := hd
    nlinarith [sq_nonneg (u + L.point.dot L.direction)]
  · intro hd
    have hs0 : 0 ≤ sqrt (lineDiscriminant L radius) := (hs _ hd).1
    have hss : sqrt (lineDiscriminant L radius) * sqrt (lineDiscriminant L radius)
        = (L.point.dot L.direction) * (L.point.dot L.direction) + radius * radius
          - absSq L.point := (hs _ hd).2
    have hiff : ∀ u : F, (tLeftOf sqrt L radius ≤ u ∧ u ≤ tRightOf sqrt L radius) ↔
        absSq (L.point.add (L.direction.mult u)) ≤ radius * radius := by
      intro u
      unfold tLeftOf tRightOf
      constructor
      · rintro ⟨h1, h2⟩
        rw [hexp u]
        nlinarith [mul_nonneg
          (by linarith : (0 : F) ≤ sqrt (lineDiscriminant L radius)
            - (u + L.point.dot L.direction))
          (by linarith : (0 : F) ≤ sqrt (lineDiscriminant L radius)
            + (u + L.point.dot L.direction))]
      · intro h
        rw [hexp u] at h
        constructor
        · nlinarith [hss, hs0, h, sq_nonneg (sqrt (lineDiscriminant L radius)
            + (u + L.point.dot L.direction))]
        · nlinarith [hss, hs0, h, sq_nonneg (sqrt (lineDiscriminant L radius)
            - (u + L.point.dot L.direction))]
    have hsucc : (linearProgram1 sqrt [L] 0 radius optVelocity false r0).success = true := by
      rw [lp1_zero_shape, if_neg (not_lt.mpr hd)]
      split_ifs <;> rfl
    have hres : (linearProgram1 sqrt [L] 0 radius optVelocity false r0).result
        = L.point.add (L.direction.mult
            (if L.direction.dot (optVelocity.sub L.point) < tLeftOf sqrt L radius then
              tLeftOf sqrt L radius
             else if tRightOf sqrt L radius < L.direction.dot (optVelocity.sub L.point) then
              tRightOf sqrt L radius
             else L.direction.dot (optVelocity.sub L.point))) := by
      rw [lp1_zero_shape, if_neg (not_lt.mpr hd)]
      split_ifs <;> rfl
    refine ⟨hsucc, hres, ?_, hiff⟩
    intro u hu1 hu2
    rw [hres]
    clear hres hsucc hiff
    simp only [tLeftOf, tRightOf] at hu1 hu2 ⊢
    split_ifs with hc1 hc2
    · rw [hexp2 u, hexp2 (-(L.point.dot L.direction) - sqrt (lineDiscriminant L radius))]
      nlinarith [mul_nonneg (sub_nonneg.mpr hu1)
        (by linarith : (0 : F) ≤ u + (-(L.point.dot L.direction)
          - sqrt (lineDiscriminant L radius))
          - 2 * (L.direction.dot (optVelocity.sub L.point)))]
    · rw [hexp2 u, hexp2 (-(L.point.dot L.direction) + sqrt (lineDiscriminant L radius))]
      nlinarith [mul_nonneg (sub_nonneg.mpr hu2)
        (by linarith : (0 : F) ≤ 2 * (L.direction.dot (optVelocity.sub L.point))
          - (-(L.point.dot L.direction) + sqrt (lineDiscriminant L radius)) - u)]
    · rw [hexp2 u, hexp2 (L.direction.dot (optVelocity.sub L.point))]
      nlinarith [sq_nonneg (u - L.direction.dot (optVelocity.sub L.point))]

/-- Witness for C4 at a concrete real line (unit direction along the
x-axis through the origin, unit speed disk). -/
theorem C4_witness :
    ((lineDiscriminant (⟨⟨0, 0⟩, ⟨1, 0⟩⟩ : Line ℝ) 1 < 0 →
      linearProgram1 Real.sqrt [(⟨⟨0, 0⟩, ⟨1, 0⟩⟩ : Line ℝ)] 0 1 ⟨0, 0⟩ false ⟨5, 5⟩
        = ⟨false, ⟨5, 5⟩⟩ ∧
      ∀ u : ℝ, 1 * 1 < absSq ((⟨0, 0⟩ : Vec ℝ).add ((⟨1, 0⟩ : Vec ℝ).mult u))) ∧
    (0 ≤ lineDiscriminant (⟨⟨0, 0⟩, ⟨1, 0⟩⟩ : Line ℝ) 1 →
      (linearProgram1 Real.sqrt [(⟨⟨0, 0⟩, ⟨1, 0⟩⟩ : Line ℝ)] 0 1 ⟨0, 0⟩ false
        ⟨5, 5⟩).success = true ∧
      (linearProgram1 Real.sqrt [(⟨⟨0, 0⟩, ⟨1, 0⟩⟩ : Line ℝ)] 0 1 ⟨0, 0⟩ false
        ⟨5, 5⟩).result
        = (⟨0, 0⟩ : Vec ℝ).add ((⟨1, 0⟩ : Vec ℝ).mult
            (if (⟨1, 0⟩ : Vec ℝ).dot ((⟨0, 0⟩ : Vec ℝ).sub ⟨0, 0⟩)
                < tLeftOf Real.sqrt ⟨⟨0, 0⟩, ⟨1, 0⟩⟩ 1 then
              tLeftOf Real.sqrt ⟨⟨0, 0⟩, ⟨1, 0⟩⟩ 1
             else if tRightOf Real.sqrt ⟨⟨0, 0⟩, ⟨1, 0⟩⟩ 1
                < (⟨1, 0⟩ : Vec ℝ).dot ((⟨0, 0⟩ : Vec ℝ).sub ⟨0, 0⟩) then
              tRightOf Real.sqrt ⟨⟨0, 0⟩, ⟨1, 0⟩⟩ 1
             else (⟨1, 0⟩ : Vec ℝ).dot ((⟨0, 0⟩ : Vec ℝ).sub ⟨0, 0⟩))) ∧
      (∀ u : ℝ, tLeftOf Real.sqrt ⟨⟨0, 0⟩, ⟨1, 0⟩⟩ 1 ≤ u →
        u ≤ tRightOf Real.sqrt ⟨⟨0, 0⟩, ⟨1, 0⟩⟩ 1 →
        absSq ((⟨0, 0⟩ : Vec ℝ).sub ((linearProgram1 Real.sqrt
            [(⟨⟨0, 0⟩, ⟨1, 0⟩⟩ : Line ℝ)] 0 1 ⟨0, 0⟩ false ⟨5, 5⟩).result))
          ≤ absSq ((⟨0, 0⟩ : Vec ℝ).sub ((⟨0, 0⟩ : Vec ℝ).add ((⟨1, 0⟩ : Vec ℝ).mult u)))) ∧
      (∀ u : ℝ, (tLeftOf Real.sqrt ⟨⟨0, 0⟩, ⟨1, 0⟩⟩ 1 ≤ u ∧
          u ≤ tRightOf Real.sqrt ⟨⟨0, 0⟩, ⟨1, 0⟩⟩ 1) ↔
        absSq ((⟨0, 0⟩ : Vec ℝ).add ((⟨1, 0⟩ : Vec ℝ).mult u)) ≤ 1 * 1))) :=
  C4_lp1_no_prior Real.sqrt goodSqrt_real ⟨⟨0, 0⟩, ⟨1, 0⟩⟩ 1 ⟨0, 0⟩ ⟨5, 5⟩
    (by norm_num [absSq])

/-! ### C5: the neighbor table -/

theorem getD_eq_of_le {α : Type*} (l : List α) (n : ℕ) (d : α) (h : l.length ≤ n) :
    l.getD n d = d := by
  rw [List.getD_eq_getElem?_getD, List.getElem?_eq_none (by simpa using h)]
  rfl

theorem getD_set_ne {α : Type*} (l : List α) (i k : ℕ) (a d : α) (h : k ≠ i) :
    (l.set i a).getD k d = l.getD k d := by
  rw [List.getD_eq_getElem?_getD, List.getD_eq_getElem?_getD,
    List.getElem?_set_ne (fun h' => h h'.symm)]

theorem getD_set_self {α : Type*} (l : List α) (i : ℕ) (a d : α) (h : i < l.length) :
    (l.set i a).getD i d = a := by
  rw [List.getD_eq_getElem?_getD, List.getElem?_set_self']
  simp [h]

theorem getD_replicate_nil {α : Type*} (n i : ℕ) :
    (List.replicate n ([] : List α)).getD i [] = [] := by
  induction n generalizing i with
  | zero => rfl
  | succ m ih =>
    cases i with
    | zero => rfl
    | succ k => exact ih k

theorem absSq_sub_comm (a b : Vec F) : absSq (a.sub b) = absSq (b.sub a) := by
  unfold absSq Vec.sub
  ring

theorem mem_insertNeighbor {l : List (NeighborRef F)} {nb x : NeighborRef F}
    (hx : x ∈ insertNeighbor l nb) : x ∈ l ∨ x = nb := by
  unfold insertNeighbor at hx
  have hx' : x ∈ (l ++ [nb]).insertionSort nrLE := by
    by_cases h : maxNeighbors < ((l ++ [nb]).insertionSort nrLE).length
    · rw [if_pos h] at hx
      exact (List.dropLast_sublist _).subset hx
    · rwa [if_neg h] at hx
  have := (List.perm_insertionSort nrLE (l ++ [nb])).subset hx'
  rcases List.mem_append.mp this with h | h
  · exact Or.inl h
  · exact Or.inr (List.mem_singleton.mp h)

theorem sorted_insertNeighbor (l : List (NeighborRef F)) (nb : NeighborRef F) :
    (insertNeighbor l nb).Sorted nrLE := by
  unfold insertNeighbor
  have hsorted : ((l ++ [nb]).insertionSort nrLE).Sorted nrLE :=
    List.sorted_insertionSort nrLE (l ++ [nb])
  by_cases h : maxNeighbors < ((l ++ [nb]).insertionSort nrLE).length
  · rw [if_pos h]
    exact hsorted.sublist (List.dropLast_sublist _)
  · rwa [if_neg h]

theorem length_insertNeighbor_le (l : List (NeighborRef F)) (nb : NeighborRef F)
    (h : l.length ≤ maxNeighbors) :
    (insertNeighbor l nb).length ≤ maxNeighbors := by
  unfold insertNeighbor
  have hlen : ((l ++ [nb]).insertionSort nrLE).length = l.length + 1 := by
    rw [(List.perm_insertionSort nrLE (l ++ [nb])).length_eq]
    simp
  by_cases hc : maxNeighbors < ((l ++ [nb]).insertionSort nrLE).length
  · rw [if_pos hc, List.length_dropLast, hlen]
    omega
  · rw [if_neg hc]
    omega

/-- Invariant maintained over the pair loop of buildNeighborTable. -/
def tableInv (agents : List (Agent F)) (radiusSq : F)
    (table : List (List (NeighborRef F))) : Prop :=
  table.length = agents.length ∧
  ∀ i : ℕ, (table.getD i []).Sorted nrLE ∧
    (table.getD i []).length ≤ maxNeighbors ∧
    ∀ nb ∈ table.getD i [], nb.index ≠ i ∧ nb.index < agents.length ∧
      nb.distSq = absSq ((agents.getD i default).position.sub
        ((agents.getD nb.index default).position)) ∧
      nb.distSq ≤ radiusSq

theorem tableInv_step (agents : List (Agent F)) (radiusSq : F)
    {table : List (List (NeighborRef F))} (ht : tableInv agents radiusSq table)
    {ij : ℕ × ℕ} (hij1 : ij.1 < ij.2) (hij2 : ij.2 < agents.length) :
    tableInv agents radiusSq (neighborStep agents radiusSq table ij) := by
  obtain ⟨hlen, hrow⟩ := ht
  unfold neighborStep
  set i := ij.1
  set j := ij.2
  set d := absSq ((agents.getD i default).position.sub ((agents.getD j default).position))
    with hd
  by_cases hskip : radiusSq < d
  · rw [if_pos hskip]
    exact ⟨hlen, hrow⟩
  · rw [if_neg hskip]
    dsimp only
    have hne : i ≠ j := Nat.ne_of_lt hij1
    have hi : i < table.length := by rw [hlen]; exact lt_trans hij1 hij2
    have hj : j < table.length := by rw [hlen]; exact hij2
    refine ⟨by simp [List.length_set, hlen], ?_⟩
    intro k
    by_cases hkj : k = j
    · subst hkj
      rw [getD_set_self _ _ _ _ (by rw [List.length_set]; exact hj),
        getD_set_ne _ _ _ _ _ hne.symm]
      refine ⟨sorted_insertNeighbor _ _, length_insertNeighbor_le _ _ (hrow j).2.1, ?_⟩
      intro nb hnb
      rcases mem_insertNeighbor hnb with h | h
      · exact (hrow j).2.2 nb h
      · subst h
        exact ⟨hne, lt_trans hij1 hij2, absSq_sub_comm _ _, not_lt.mp hskip⟩
    · rw [getD_set_ne _ _ _ _ _ hkj]
      by_cases hki : k = i
      · subst hki
        rw [getD_set_self _ _ _ _ hi]
        refine ⟨sorted_insertNeighbor _ _, length_insertNeighbor_le _ _ (hrow i).2.1, ?_⟩
        intro nb hnb
        rcases mem_insertNeighbor hnb with h | h
        · exact (hrow i).2.2 nb h
        · subst h
          exact ⟨Ne.symm hne, hij2, rfl, not_lt.mp hskip⟩
      · rw [getD_set_ne _ _ _ _ _ hki]
        exact hrow k

theorem allPairs_bounds (n : ℕ) : ∀ ij ∈ allPairs n, ij.1 < ij.2 ∧ ij.2 < n := by
  intro ij hij
  simp only [allPairs, List.mem_flatMap, List.mem_map, List.mem_filter,
    List.mem_range, decide_eq_true_eq] at hij
  obtain ⟨i, _, j, ⟨hj, hlt⟩, rfl⟩ := hij
  exact ⟨hlt, hj⟩

theorem tableInv_foldl (agents : List (Agent F)) (radiusSq : F)
    (pairs : List (ℕ × ℕ)) (hp : ∀ ij ∈ pairs, ij.1 < ij.2 ∧ ij.2 < agents.length)
    {table : List (List (NeighborRef F))} (ht : tableInv agents radiusSq table) :
    tableInv agents radiusSq (pairs.foldl (neighborStep agents radiusSq) table) := by
  induction pairs generalizing table with
  | nil => exact ht
  | cons hd tl ih =>
    exact ih (fun ij h => hp ij (List.mem_cons_of_mem hd h))
      (tableInv_step agents radiusSq ht (hp hd (List.mem_cons_self hd tl)).1
        (hp hd (List.mem_cons_self hd tl)).2)

theorem tableInv_init (agents : List (Agent F)) (radiusSq : F) :
    tableInv agents radiusSq (List.replicate agents.length []) := by
  refine ⟨by simp, ?_⟩
  intro i
  rw [getD_replicate_nil]
  exact ⟨List.sorted_nil, by simp [maxNeighbors], by simp⟩

theorem tableInv_buildNeighborTable (agents : List (Agent F)) (radiusSq : F) :
    tableInv agents radiusSq (buildNeighborTable agents radiusSq) :=
  tableInv_foldl agents radiusSq (allPairs agents.length)
    (allPairs_bounds agents.length) (tableInv_init agents radiusSq)

/-- Row length cap of the neighbor table. -/
theorem neighborTable_row_length_le (agents : List (Agent F)) (radiusSq : F) (i : ℕ) :
    ((buildNeighborTable agents radiusSq).getD i []).length ≤ maxNeighbors :=
  ((tableInv_buildNeighborTable agents radiusSq).2 i).2.1

/-- C5 (amended): the table has one row per agent; each row is sorted
ascending by squared distance, has at most maxNeighbors entries, and
every entry refers to a different, in-range agent whose stored squared
distance is the true squared distance and is at most the squared
neighbor radius; zero agents give an empty table.  (Membership is not
exact: pairs at exactly the squared radius are kept, and an agent
strictly inside the radius can still be absent once the row is full.) -/
theorem C5_neighbor_table (agents : List (Agent F)) (radiusSq : F) :
    (buildNeighborTable agents radiusSq).length = agents.length ∧
    (agents = [] → buildNeighborTable agents radiusSq = []) ∧
    ∀ i : ℕ, ((buildNeighborTable agents radiusSq).getD i []).Sorted nrLE ∧
      ((buildNeighborTable agents radiusSq).getD i []).length ≤ maxNeighbors ∧
      ∀ nb ∈ (buildNeighborTable agents radiusSq).getD i [],
        nb.index ≠ i ∧ nb.index < agents.length ∧
        nb.distSq = absSq ((agents.getD i default).position.sub
          ((agents.getD nb.index default).position)) ∧
        nb.distSq ≤ radiusSq := by
  refine ⟨(tableInv_buildNeighborTable agents radiusSq).1, ?_,
    (tableInv_buildNeighborTable agents radiusSq).2⟩
  intro h
  subst h
  rfl

/-- Agent with the given position and fixed remaining fields, used by
the concrete neighbor-table configurations. -/
def agentAt (position : Vec ℚ) : Agent ℚ :=
  { id := "x", position := position, velocity := ⟨0, 0⟩, preferredVelocity := ⟨0, 0⟩,
    radius := 1, preferredSpeed := 1, maxSpeed := 2, anchors := (⟨0, 0⟩, ⟨0, 0⟩),
    headingIndex := 0, color := "c" }

/-- Two agents at squared distance exactly 100. -/
def cexAgents2 : List (Agent ℚ) := [agentAt ⟨0, 0⟩, agentAt ⟨10, 0⟩]

/-- Thirteen agents: agent 0 has eleven other agents strictly within
squared distance 100 (indices 1..9, 11, 12), one more at exactly 100
(index 10). -/
def cexAgents13 : List (Agent ℚ) :=
  [agentAt ⟨0, 0⟩, agentAt ⟨-1, 0⟩, agentAt ⟨-2, 0⟩, agentAt ⟨-3, 0⟩,
    agentAt ⟨-4, 0⟩, agentAt ⟨-5, 0⟩, agentAt ⟨-6, 0⟩, agentAt ⟨-7, 0⟩,
    agentAt ⟨-8, 0⟩, agentAt ⟨-9, 0⟩, agentAt ⟨-10, 0⟩, agentAt ⟨2, 3⟩,
    agentAt ⟨6, 7⟩]

/-- C5 counterexample to the claim as stated: with squared radius 100,
a pair at squared distance exactly 100 (not strictly less) appears in
the table, and among thirteen agents one agent strictly within the
radius of agent 0 is missing from agent 0's row (the row holds at most
maxNeighbors = 10 of the eleven strictly-in-range agents). -/
theorem C5_counterexample :
    ((⟨1, 100⟩ : NeighborRef ℚ) ∈ (buildNeighborTable cexAgents2 100).getD 0 [] ∧
      ¬(absSq ((cexAgents2.getD 0 default).position.sub
        ((cexAgents2.getD 1 default).position)) < 100)) ∧
    (∃ j : ℕ, j < cexAgents13.length ∧ 0 ≠ j ∧
      absSq ((cexAgents13.getD 0 default).position.sub
        ((cexAgents13.getD j default).position)) < 100 ∧
      ∀ nb ∈ (buildNeighborTable cexAgents13 100).getD 0 [], nb.index ≠ j) := by
  constructor
  · constructor
    · have h2 : buildNeighborTable cexAgents2 100
          = [[⟨1, 100⟩], [⟨0, 100⟩]] := by
        norm_num [buildNeighborTable, allPairs, neighborStep, insertNeighbor,
          cexAgents2, agentAt, absSq, Vec.sub, maxNeighbors, List.insertionSort,
          List.orderedInsert, List.range_succ, List.replicate, List.set]
      rw [h2]
      norm_num
    · norm_num [cexAgents2, agentAt, absSq, Vec.sub]
  · by_contra hcon
    push_neg at hcon
    have hrowlen := neighborTable_row_length_le cexAgents13 (100 : ℚ) 0
    set row := (buildNeighborTable cexAgents13 (100 : ℚ)).getD 0 [] with hrowdef
    have hget : ∀ j : ℕ, j < cexAgents13.length → 0 ≠ j →
        absSq ((cexAgents13.getD 0 default).position.sub
          ((cexAgents13.getD j default).position)) < 100 →
        j ∈ row.map (fun nb => nb.index) := by
      intro j h1 h2 h3
      obtain ⟨nb, hnb, hidx⟩ := hcon j h1 h2 h3
      exact List.mem_map.mpr ⟨nb, hnb, hidx⟩
    have hmem : ∀ j ∈ ({1, 2, 3, 4, 5, 6, 7, 8, 9, 11, 12} : Finset ℕ),
        j ∈ (row.map (fun nb => nb.index)).toFinset := by
      intro j hj
      rw [List.mem_toFinset]
      fin_cases hj <;>
        [exact hget 1 (by norm_num [cexAgents13]) (by norm_num)
          (by norm_num [cexAgents13, agentAt, absSq, Vec.sub]);
         exact hget 2 (by norm_num [cexAgents13]) (by norm_num)
          (by norm_num [cexAgents13, agentAt, absSq, Vec.sub]);
         exact hget 3 (by norm_num [cexAgents13]) (by norm_num)
          (by norm_num [cexAgents13, agentAt, absSq, Vec.sub]);
         exact hget 4 (by norm_num [cexAgents13]) (by norm_num)
          (by norm_num [cexAgents13, agentAt, absSq, Vec.sub]);
         exact hget 5 (by norm_num [cexAgents13]) (by norm_num)
          (by norm_num [cexAgents13, agentAt, absSq, Vec.sub]);
         exact hget 6 (by norm_num [cexAgents13]) (by norm_num)
          (by norm_num [cexAgents13, agentAt, absSq, Vec.sub]);
         exact hget 7 (by norm_num [cexAgents13]) (by norm_num)
          (by norm_num [cexAgents13, agentAt, absSq, Vec.sub]);
         exact hget 8 (by norm_num [cexAgents13]) (by norm_num)
          (by norm_num [cexAgents13, agentAt, absSq, Vec.sub]);
         exact hget 9 (by norm_num [cexAgents13]) (by norm_num)
          (by norm_num [cexAgents13, agentAt, absSq, Vec.sub]);
         exact hget 11 (by norm_num [cexAgents13]) (by norm_num)
          (by norm_num [cexAgents13, agentAt, absSq, Vec.sub]);
         exact hget 12 (by norm_num [cexAgents13]) (by norm_num)
          (by norm_num [cexAgents13, agentAt, absSq, Vec.sub])]
    have hcard : (11 : ℕ) ≤ (row.map (fun nb => nb.index)).toFinset.card := by
      have h1 : ({1, 2, 3, 4, 5, 6, 7, 8, 9, 11, 12} : Finset ℕ).card = 11 := by decide
      calc (11 : ℕ) = ({1, 2, 3, 4, 5, 6, 7, 8, 9, 11, 12} : Finset ℕ).card := h1.symm
        _ ≤ (row.map (fun nb => nb.index)).toFinset.card := Finset.card_le_card hmem
    have hle : (row.map (fun nb => nb.index)).toFinset.card ≤ 10 := by
      calc (row.map (fun nb => nb.index)).toFinset.card
          ≤ (row.map (fun nb => nb.index)).length := List.toFinset_card_le _
        _ = row.length := List.length_map _ _
        _ ≤ 10 := hrowlen
    omega

/-- Witness for C5 at concrete rational inputs: the empty agent list
gives an empty table, and the two-agent configuration satisfies the row
bound. -/
theorem C5_witness :
    (buildNeighborTable ([] : List (Agent ℚ)) 100 = []) ∧
    ((buildNeighborTable cexAgents2 100).getD 0 []).length ≤ maxNeighbors :=
  ⟨(C5_neighbor_table ([] : List (Agent ℚ)) 100).2.1 rfl,
    ((C5_neighbor_table cexAgents2 100).2.2 0).2.1⟩

/-! ### C7: the reduced constraint set of the three-stage fallback -/

/-- Reduced constraint set following the words of the claim: a parallel
(absolute cross product of directions at most 1e-5) and non-opposing
pair merges into the midpoint of the two lines' points; otherwise the
standard two-line intersection formula is used; one projected line per
previously processed line, each direction the normalized difference of
the two directions. -/
def projLinesClaim (sqrt : F → F) (lines : List (Line F))
    (numObstLines i : ℕ) (line : Line F) : List (Line F) :=
  (lines.take numObstLines) ++
    ((List.range' numObstLines (i - numObstLines)).map fun j =>
      let other := lines.getD j default
      let determinant := det line.direction other.direction
      if |determinant| ≤ EPSILON ∧ 0 < line.direction.dot other.direction then
        { point := (line.point.add other.point).mult (1 / 2),
          direction := normalize sqrt (other.direction.sub line.direction) }
      else
        { point := line.point.add (line.direction.mult
            (det other.direction (line.point.sub other.point) / determinant)),
          direction := normalize sqrt (other.direction.sub line.direction) })

/-- C7 counterexample: for two parallel same-direction (non-opposing)
lines the code contributes no projected line at all (the loop
continues), while the claim as stated predicts a midpoint line; the
code takes the midpoint only for parallel opposing pairs. -/
theorem C7_counterexample :
    projLinesFor (fun q => q)
        [(⟨⟨0, 0⟩, ⟨1, 0⟩⟩ : Line ℚ), ⟨⟨0, 1⟩, ⟨1, 0⟩⟩] 0 1 ⟨⟨0, 1⟩, ⟨1, 0⟩⟩
      = ([] : List (Line ℚ)) ∧
    projLinesClaim (fun q => q)
        [(⟨⟨0, 0⟩, ⟨1, 0⟩⟩ : Line ℚ), ⟨⟨0, 1⟩, ⟨1, 0⟩⟩] 0 1 ⟨⟨0, 1⟩, ⟨1, 0⟩⟩
      = [⟨⟨0, 1 / 2⟩, ⟨0, 0⟩⟩] ∧
    projLinesFor (fun q => q)
        [(⟨⟨0, 0⟩, ⟨1, 0⟩⟩ : Line ℚ), ⟨⟨0, 1⟩, ⟨1, 0⟩⟩] 0 1 ⟨⟨0, 1⟩, ⟨1, 0⟩⟩
      ≠ projLinesClaim (fun q => q)
        [(⟨⟨0, 0⟩, ⟨1, 0⟩⟩ : Line ℚ), ⟨⟨0, 1⟩, ⟨1, 0⟩⟩] 0 1 ⟨⟨0, 1⟩, ⟨1, 0⟩⟩ := by
  refine ⟨?_, ?_, ?_⟩
  · norm_num [projLinesFor, projLineAt, det, Vec.dot, EPSILON, List.range']
  · norm_num [projLinesClaim, det, Vec.dot, EPSILON, List.range', normalize, mag,
      Vec.add, Vec.mult, Vec.sub, Vec.zero]
  · intro h
    rw [show projLinesFor (fun q => q)
        [(⟨⟨0, 0⟩, ⟨1, 0⟩⟩ : Line ℚ), ⟨⟨0, 1⟩, ⟨1, 0⟩⟩] 0 1 ⟨⟨0, 1⟩, ⟨1, 0⟩⟩
        = ([] : List (Line ℚ)) from by
          norm_num [projLinesFor, projLineAt, det, Vec.dot, EPSILON, List.range'],
      show projLinesClaim (fun q => q)
        [(⟨⟨0, 0⟩, ⟨1, 0⟩⟩ : Line ℚ), ⟨⟨0, 1⟩, ⟨1, 0⟩⟩] 0 1 ⟨⟨0, 1⟩, ⟨1, 0⟩⟩
        = [⟨⟨0, 1 / 2⟩, ⟨0, 0⟩⟩] from by
          norm_num [projLinesClaim, det, Vec.dot, EPSILON, List.range', normalize,
            mag, Vec.add, Vec.mult, Vec.sub, Vec.zero]] at h
    exact List.noConfusion h

/-- C7 (amended): the reduced set is the obstacle-line prefix plus one
projected line per previously processed line, where a parallel
same-direction pair is skipped, a parallel opposing pair merges into
the midpoint of the two points, a non-parallel pair uses the standard
two-line intersection formula, every kept direction is the normalized
difference of the two directions; and the fallback's inner solve for a
violating line runs linearProgram2 on that reduced set in
direction-optimization mode along the perpendicular of the violating
line's direction. -/
theorem C7_proj_construction (sqrt : F → F) (lines : List (Line F))
    (numObstLines i : ℕ) (line : Line F) :
    (projLinesFor sqrt lines numObstLines i line
      = lines.take numObstLines
        ++ (List.range' numObstLines (i - numObstLines)).filterMap
            (projLineAt sqrt lines line)) ∧
    (∀ j : ℕ,
      (|det line.direction (lines.getD j default).direction| ≤ EPSILON →
        0 < line.direction.dot (lines.getD j default).direction →
        projLineAt sqrt lines line j = none) ∧
      (|det line.direction (lines.getD j default).direction| ≤ EPSILON →
        ¬0 < line.direction.dot (lines.getD j default).direction →
        projLineAt sqrt lines line j
          = some { point := (line.point.add (lines.getD j default).point).mult (1 / 2),
                   direction := normalize sqrt
                     ((lines.getD j default).direction.sub line.direction) }) ∧
      (EPSILON < |det line.direction (lines.getD j default).direction| →
        projLineAt sqrt lines line j
          = some { point := line.point.add (line.direction.mult
                     (det (lines.getD j default).direction
                         (line.point.sub (lines.getD j default).point)
                       / det line.direction (lines.getD j default).direction)),
                   direction := normalize sqrt
                     ((lines.getD j default).direction.sub line.direction) })) ∧
    (∀ (radius : F) (i0 : ℕ) (h : i0 < lines.length) (result : Vec F) (distance : F),
      distance < det (lines.get ⟨i0, h⟩).direction
          ((lines.get ⟨i0, h⟩).point.sub result) →
      ∃ result1 : Vec F,
        result1 = (if (linearProgram2 sqrt
              (projLinesFor sqrt lines numObstLines i0 (lines.get ⟨i0, h⟩)) radius
              (perp (lines.get ⟨i0, h⟩).direction) true).lineFail
            < (projLinesFor sqrt lines numObstLines i0 (lines.get ⟨i0, h⟩)).length
          then result
          else (linearProgram2 sqrt
              (projLinesFor sqrt lines numObstLines i0 (lines.get ⟨i0, h⟩)) radius
              (perp (lines.get ⟨i0, h⟩).direction) true).result) ∧
        lp3Loop sqrt lines numObstLines radius i0 result distance
          = lp3Loop sqrt lines numObstLines radius (i0 + 1) result1
              (det (lines.get ⟨i0, h⟩).direction
                ((lines.get ⟨i0, h⟩).point.sub result1))) := by
  refine ⟨rfl, ?_, ?_⟩
  · intro j
    refine ⟨?_, ?_, ?_⟩
    · intro h1 h2
      unfold projLineAt
      rw [if_pos h1, if_pos h2]
    · intro h1 h2
      unfold projLineAt
      rw [if_pos h1, if_neg h2]
    · intro h1
      unfold projLineAt
      rw [if_neg (not_le.mpr h1)]
  · intro radius i0 h result distance hviol
    refine ⟨_, rfl, ?_⟩
    conv_lhs => rw [lp3Loop]
    rw [dif_pos h]
    dsimp only
    rw [if_pos hviol]

/-- Witness for C7 at the concrete parallel same-direction pair: the
skip branch, the midpoint branch at an opposing pair, and the inner
solve unfolding at a violating line. -/
theorem C7_witness :
    projLineAt (fun q => q)
        [(⟨⟨0, 0⟩, ⟨1, 0⟩⟩ : Line ℚ), ⟨⟨0, 1⟩, ⟨1, 0⟩⟩] ⟨⟨0, 1⟩, ⟨1, 0⟩⟩ 0 = none :=
  ((C7_proj_construction (fun q => q)
      [(⟨⟨0, 0⟩, ⟨1, 0⟩⟩ : Line ℚ), ⟨⟨0, 1⟩, ⟨1, 0⟩⟩] 0 1 ⟨⟨0, 1⟩, ⟨1, 0⟩⟩).2.1 0).1
    (by norm_num [det, EPSILON]) (by norm_num [Vec.dot])

/-! ### C3: totality and soundness of the incremental full solve -/

/-- Feasibility of a velocity for a half-plane constraint, stated as
the negation of the violation test of linearProgram2/3. -/
def satisfiesLine (L : Line F) (v : Vec F) : Prop :=
  det L.direction (L.point.sub v) ≤ 0

/-- Hypothesis: every constraint direction is exactly unit length (the
constraint builder guarantees this, claim C6). -/
def unitDirections (lines : List (Line F)) : Prop :=
  ∀ L ∈ lines, absSq L.direction = 1

/-- Exactness hypothesis absorbing the 1e-5 threshold: every pair of
constraint directions is either exactly parallel or has cross product
clear of the threshold. -/
def cleanAngles (lines : List (Line F)) : Prop :=
  ∀ L ∈ lines, ∀ M ∈ lines,
    det L.direction M.direction = 0 ∨ EPSILON < |det L.direction M.direction|

theorem absSq_add_mult (p d : Vec F) (u : F) (hunit : absSq d = 1) :
    absSq (p.add (d.mult u)) = absSq p + 2 * u * (p.dot d) + u * u := by
  have h : d.x * d.x + d.y * d.y = 1 := hunit
  unfold absSq Vec.add Vec.mult Vec.dot
  linear_combination (u * u) * h

theorem det_point_param (Lj line : Line F) (t : F) :
    det Lj.direction (Lj.point.sub (line.point.add (line.direction.mult t)))
      = t * det line.direction Lj.direction
        - det Lj.direction (line.point.sub Lj.point) := by
  unfold det Vec.sub Vec.add Vec.mult
  ring

/-- Soundness of the interval-shrinking loop of linearProgram1: a
surviving interval is contained in the initial one, is ordered, and
every parameter in it satisfies all processed constraints (under the
exactness hypothesis for the parallel branch). -/
theorem lp1Interval_sound (lines : List (Line F)) (line : Line F) (k : ℕ)
    (tL0 tR0 : F)
    (hclean : ∀ j : ℕ, j < k →
      det line.direction (lines.getD j default).direction = 0 ∨
        EPSILON < |det line.direction (lines.getD j default).direction|)
    {tL tR : F} (hres : lp1Interval lines line k tL0 tR0 = some (tL, tR)) :
    tL0 ≤ tL ∧ tR ≤ tR0 ∧ (tL0 ≤ tR0 → tL ≤ tR) ∧
    ∀ t : F, tL ≤ t → t ≤ tR → ∀ j : ℕ, j < k →
      det (lines.getD j default).direction
        ((lines.getD j default).point.sub (line.point.add (line.direction.mult t))) ≤ 0 := by
  induction k generalizing tL tR with
  | zero =>
    simp only [lp1Interval, Option.some.injEq, Prod.mk.injEq] at hres
    obtain ⟨rfl, rfl⟩ := hres
    exact ⟨le_refl _, le_refl _, fun h => h, fun t _ _ j hj => absurd hj (Nat.not_lt_zero j)⟩
  | succ k ih =>
    simp only [lp1Interval] at hres
    cases hmid : lp1Interval lines line k tL0 tR0 with
    | none => rw [hmid] at hres; exact absurd hres (by simp)
    | some p =>
      obtain ⟨tL1, tR1⟩ := p
      rw [hmid] at hres
      have hcleank : ∀ j : ℕ, j < k →
          det line.direction (lines.getD j default).direction = 0 ∨
            EPSILON < |det line.direction (lines.getD j default).direction| :=
        fun j hj => hclean j (Nat.lt_succ_of_lt hj)
      obtain ⟨h1, h2, h3, h4⟩ := ih hcleank hmid
      dsimp only at hres
      by_cases hpar : |det line.direction (lines.getD k default).direction| ≤ EPSILON
      · rw [if_pos hpar] at hres
        have hdet0 : det line.direction (lines.getD k default).direction = 0 := by
          rcases hclean k (Nat.lt_succ_self k) with h | h
          · exact h
          · exact absurd hpar (not_le.mpr h)
        by_cases hnum : det (lines.getD k default).direction
            (line.point.sub (lines.getD k default).point) < 0
        · rw [if_pos hnum] at hres
          exact absurd hres (by simp)
        · rw [if_neg hnum] at hres
          simp only [Option.some.injEq, Prod.mk.injEq] at hres
          obtain ⟨rfl, rfl⟩ := hres
          refine ⟨h1, h2, h3, ?_⟩
          intro t ht1 ht2 j hj
          rcases Nat.lt_succ_iff_lt_or_eq.mp hj with hj | rfl
          · exact h4 t ht1 ht2 j hj
          · rw [det_point_param, hdet0]
            push_neg at hnum
            linarith
      · rw [if_neg hpar] at hres
        have hdetne : det line.direction (lines.getD k default).direction ≠ 0 := by
          intro h0
          rw [h0] at hpar
          simp at hpar
          exact absurd hpar (not_lt.mpr (le_of_lt EPSILON_pos))
        set den := det line.direction (lines.getD k default).direction with hden
        set num := det (lines.getD k default).direction
          (line.point.sub (lines.getD k default).point) with hnum
        by_cases hsgn : 0 ≤ den
        · rw [if_pos hsgn] at hres
          dsimp only at hres
          by_cases hord : tL1 > min tR1 (num / den)
          · rw [if_pos hord] at hres
            exact absurd hres (by simp)
          · rw [if_neg hord] at hres
            simp only [Option.some.injEq, Prod.mk.injEq] at hres
            obtain ⟨rfl, rfl⟩ := hres
            push_neg at hord
            have hdpos : 0 < den := lt_of_le_of_ne hsgn (Ne.symm hdetne)
            refine ⟨h1, le_trans (min_le_left _ _) h2, fun _ => hord, ?_⟩
            intro t ht1 ht2 j hj
            rcases Nat.lt_succ_iff_lt_or_eq.mp hj with hj | rfl
            · exact h4 t ht1 (le_trans ht2 (min_le_left _ _)) j hj
            · rw [det_point_param, ← hden, ← hnum]
              have htnd : t ≤ num / den := le_trans ht2 (min_le_right _ _)
              have : t * den ≤ num := by
                rw [← div_mul_cancel₀ num hdetne]
                exact mul_le_mul_of_nonneg_right htnd (le_of_lt hdpos)
              linarith
        · rw [if_neg hsgn] at hres
          dsimp only at hres
          by_cases hord : max tL1 (num / den) > tR1
          · rw [if_pos hord] at hres
            exact absurd hres (by simp)
          · rw [if_neg hord] at hres
            simp only [Option.some.injEq, Prod.mk.injEq] at hres
            obtain ⟨rfl, rfl⟩ := hres
            push_neg at hord
            have hdneg : den < 0 := not_le.mp hsgn
            refine ⟨le_trans h1 (le_max_left _ _), h2, fun _ => hord, ?_⟩
            intro t ht1 ht2 j hj
            rcases Nat.lt_succ_iff_lt_or_eq.mp hj with hj | rfl
            · exact h4 t (le_trans (le_max_left _ _) ht1) ht2 j hj
            · rw [det_point_param, ← hden, ← hnum]
              have htnd : num / den ≤ t := le_trans (le_max_right _ _) ht1
              have : t * den ≤ num := by
                rw [← div_mul_cancel₀ num hdetne]
                exact mul_le_mul_of_nonpos_right htnd (le_of_lt hdneg)
              linarith

set_option maxHeartbeats 1000000 in
/-- Soundness of the single-line solve in point mode: on success the
returned velocity lies on the solved line inside the speed disk and
satisfies the solved line and every earlier constraint. -/
theorem lp1_sound (sqrt : F → F) (hs : GoodSqrt sqrt) (lines : List (Line F))
    (lineNo : ℕ) (radius : F) (optVelocity result0 : Vec F)
    (hunit : absSq (lines.getD lineNo default).direction = 1)
    (hclean : ∀ j : ℕ, j < lineNo →
      det (lines.getD lineNo default).direction (lines.getD j default).direction = 0 ∨
        EPSILON < |det (lines.getD lineNo default).direction (lines.getD j default).direction|)
    (hsucc : (linearProgram1 sqrt lines lineNo radius optVelocity false result0).success
      = true) :
    absSq (linearProgram1 sqrt lines lineNo radius optVelocity false result0).result
      ≤ radius * radius ∧
    ∀ j : ℕ, j ≤ lineNo →
      satisfiesLine (lines.getD j default)
        (linearProgram1 sqrt lines lineNo radius optVelocity false result0).result := by
  unfold linearProgram1 at hsucc ⊢
  dsimp only at hsucc ⊢
  set line := lines.getD lineNo default with hline
  set dotP := line.point.dot line.direction with hdotP
  set disc := dotP * dotP + radius * radius - absSq line.point with hdisc
  by_cases hd : disc < 0
  · rw [if_pos hd] at hsucc
    exact absurd hsucc (by simp)
  · rw [if_neg hd] at hsucc ⊢
    push_neg at hd
    obtain ⟨hs0, hss⟩ := hs disc hd
    cases hint : lp1Interval lines line lineNo (-dotP - sqrt disc) (-dotP + sqrt disc) with
    | none =>
      rw [hint] at hsucc
      exact absurd hsucc (by simp)
    | some p =>
      obtain ⟨tL, tR⟩ := p
      rw [hint] at hsucc
      dsimp only at hsucc ⊢
      obtain ⟨h1, h2, h3, h4⟩ := lp1Interval_sound lines line lineNo _ _ hclean hint
      have hord : tL ≤ tR := h3 (by linarith)
      simp only [Bool.false_eq_true, if_false] at hsucc ⊢
      have key : ∀ u : F, tL ≤ u → u ≤ tR →
          absSq (line.point.add (line.direction.mult u)) ≤ radius * radius ∧
          ∀ j : ℕ, j ≤ lineNo → satisfiesLine (lines.getD j default)
            (line.point.add (line.direction.mult u)) := by
        intro u hu1 hu2
        constructor
        · rw [absSq_add_mult _ _ _ hunit]
          have hu1' : -dotP - sqrt disc ≤ u := le_trans h1 hu1
          have hu2' : u ≤ -dotP + sqrt disc := le_trans hu2 h2
          nlinarith [mul_nonneg (by linarith : (0 : F) ≤ sqrt disc - (u + dotP))
            (by linarith : (0 : F) ≤ sqrt disc + (u + dotP)), hss, hdisc]
        · intro j hj
          rcases lt_or_eq_of_le hj with hj | rfl
          · exact h4 u hu1 hu2 j hj
          · show det line.direction (line.point.sub (line.point.add (line.direction.mult u))) ≤ 0
            have e1 : det line.direction line.direction = 0 := by unfold det; ring
            have e2 : det line.direction (line.point.sub line.point) = 0 := by
              unfold det Vec.sub; ring
            rw [det_point_param line line u, e1, e2]
            simp
      split_ifs with hc1 hc2
      · exact key tL (le_refl _) hord
      · exact key tR hord (le_refl _)
      · exact key _ (not_lt.mp hc1) (not_lt.mp hc2)

theorem getD_eq_get {α : Type*} [Inhabited α] (l : List α) (i : ℕ) (h : i < l.length) :
    l.getD i default = l.get ⟨i, h⟩ := by
  rw [List.getD_eq_getElem l default h, List.get_eq_getElem]

set_option maxHeartbeats 2000000 in
/-- Invariant of the loop of linearProgram2 in point mode: starting
from a candidate inside the speed disk satisfying all lines before i,
the loop either ends with lineFail = lines.length and a velocity inside
the disk satisfying every line, or stops at the first line whose
single-line solve is infeasible, returning that index and the candidate
from before that solve (which satisfies all earlier lines). -/
theorem lp2Loop_sound (sqrt : F → F) (hs : GoodSqrt sqrt) (lines : List (Line F))
    (radius : F) (optVelocity : Vec F)
    (hunit : unitDirections lines) (hclean : cleanAngles lines) :
    ∀ (n i : ℕ) (result : Vec F), lines.length - i = n →
    absSq result ≤ radius * radius →
    (∀ j : ℕ, j < i → satisfiesLine (lines.getD j default) result) →
    (lp2Loop sqrt lines radius optVelocity false i result).lineFail ≤ lines.length ∧
    ((lp2Loop sqrt lines radius optVelocity false i result).lineFail = lines.length →
      absSq (lp2Loop sqrt lines radius optVelocity false i result).result
        ≤ radius * radius ∧
      ∀ j : ℕ, j < lines.length → satisfiesLine (lines.getD j default)
        (lp2Loop sqrt lines radius optVelocity false i result).result) ∧
    ((lp2Loop sqrt lines radius optVelocity false i result).lineFail < lines.length →
      ¬ satisfiesLine
          (lines.getD (lp2Loop sqrt lines radius optVelocity false i result).lineFail
            default)
          (lp2Loop sqrt lines radius optVelocity false i result).result ∧
      (linearProgram1 sqrt lines
          (lp2Loop sqrt lines radius optVelocity false i result).lineFail radius
          optVelocity false
          (lp2Loop sqrt lines radius optVelocity false i result).result).success = false ∧
      (∀ j : ℕ, j < (lp2Loop sqrt lines radius optVelocity false i result).lineFail →
        satisfiesLine (lines.getD j default)
          (lp2Loop sqrt lines radius optVelocity false i result).result) ∧
      absSq (lp2Loop sqrt lines radius optVelocity false i result).result
        ≤ radius * radius) := by
  intro n
  induction n with
  | zero =>
    intro i result hn hdisk hsat
    have hge : ¬ i < lines.length := by omega
    rw [lp2Loop, dif_neg hge]
    refine ⟨le_refl _, fun _ => ⟨hdisk, fun j hj => hsat j (by omega)⟩, fun habs => ?_⟩
    exact absurd habs (lt_irrefl _)
  | succ n ih =>
    intro i result hn hdisk hsat
    have hi : i < lines.length := by omega
    rw [lp2Loop, dif_pos hi]
    dsimp only
    by_cases hviol : 0 < det (lines.get ⟨i, hi⟩).direction
        ((lines.get ⟨i, hi⟩).point.sub result)
    · rw [if_pos hviol]
      cases hb : (linearProgram1 sqrt lines i radius optVelocity false result).success with
      | true =>
        rw [if_pos rfl]
        have hmem : lines.getD i default ∈ lines := getD_mem_of_lt lines i hi default
        have hcleani : ∀ j : ℕ, j < i →
            det (lines.getD i default).direction (lines.getD j default).direction = 0 ∨
              EPSILON < |det (lines.getD i default).direction
                (lines.getD j default).direction| := by
          intro j hj
          exact hclean _ hmem _ (getD_mem_of_lt lines j (by omega) default)
        obtain ⟨hdisk', hsat'⟩ := lp1_sound sqrt hs lines i radius optVelocity result
          (hunit _ hmem) hcleani hb
        exact ih (i + 1) _ (by omega) hdisk'
          (fun j hj => hsat' j (Nat.lt_succ_iff.mp hj))
      | false =>
        rw [if_neg (by simp)]
        dsimp only
        refine ⟨le_of_lt hi, fun habs => ?_, fun _ => ?_⟩
        · exact absurd habs (by omega)
        · refine ⟨?_, hb, hsat, hdisk⟩
          intro hcon
          unfold satisfiesLine at hcon
          rw [getD_eq_get lines i hi] at hcon
          exact absurd hviol (not_lt.mpr hcon)
    · rw [if_neg hviol]
      refine ih (i + 1) result (by omega) hdisk ?_
      intro j hj
      rcases Nat.lt_succ_iff_lt_or_eq.mp hj with hj | rfl
      · exact hsat j hj
      · unfold satisfiesLine
        rw [getD_eq_get lines j hi]
        exact not_lt.mp hviol

theorem forall_getD_to_mem {α : Type*} [Inhabited α] (l : List α) (P : α → Prop)
    (h : ∀ j : ℕ, j < l.length → P (l.getD j default)) : ∀ L ∈ l, P L := by
  intro L hL
  obtain ⟨j, hj, rfl⟩ := List.mem_iff_getElem.mp hL
  rw [← List.getD_eq_getElem l default hj]
  exact h j hj

theorem absSq_mult (v : Vec F) (s : F) : absSq (v.mult s) = s * s * absSq v := by
  unfold absSq Vec.mult
  ring

set_option maxHeartbeats 1000000 in
/-- C3: linearProgram2 in point mode is a total function (embedded
without partiality; it always returns an index and a velocity, never an
error): the returned index never exceeds the number of lines; when it
equals the number of lines every processed line was incrementally
satisfiable and the returned velocity is feasible (inside the speed
disk and on the permitted side of every line); otherwise it is the
index of the first line whose single-line solve reports infeasibility,
returned together with the best candidate computed before that line
(which still satisfies all earlier lines and the speed bound).  Under
an exact square root, unit constraint directions, and cross products
clear of the 1e-5 threshold. -/
theorem C3_lp2_total (sqrt : F → F) (hs : GoodSqrt sqrt) (lines : List (Line F))
    (radius : F) (optVelocity : Vec F) (hr : 0 ≤ radius)
    (hunit : unitDirections lines) (hclean : cleanAngles lines) :
    (linearProgram2 sqrt lines radius optVelocity false).lineFail ≤ lines.length ∧
    ((linearProgram2 sqrt lines radius optVelocity false).lineFail = lines.length →
      absSq (linearProgram2 sqrt lines radius optVelocity false).result
        ≤ radius * radius ∧
      ∀ L ∈ lines, satisfiesLine L
        (linearProgram2 sqrt lines radius optVelocity false).result) ∧
    ((linearProgram2 sqrt lines radius optVelocity false).lineFail < lines.length →
      ¬ satisfiesLine
          (lines.getD (linearProgram2 sqrt lines radius optVelocity false).lineFail
            default)
          (linearProgram2 sqrt lines radius optVelocity false).result ∧
      (linearProgram1 sqrt lines
          (linearProgram2 sqrt lines radius optVelocity false).lineFail radius
          optVelocity false
          (linearProgram2 sqrt lines radius optVelocity false).result).success = false ∧
      (∀ j : ℕ, j < (linearProgram2 sqrt lines radius optVelocity false).lineFail →
        satisfiesLine (lines.getD j default)
          (linearProgram2 sqrt lines radius optVelocity false).result) ∧
      absSq (linearProgram2 sqrt lines radius optVelocity false).result
        ≤ radius * radius) := by
  have hinit : absSq (if radius * radius < absSq optVelocity then
      (normalize sqrt optVelocity).mult radius else optVelocity) ≤ radius * radius := by
    by_cases hbig : radius * radius < absSq optVelocity
    · rw [if_pos hbig, absSq_mult]
      have hpos : 0 < absSq optVelocity :=
        lt_of_le_of_lt (mul_nonneg hr hr) hbig
      rw [absSq_normalize_eq_one hs optVelocity hpos]
      linarith
    · rw [if_neg hbig]
      exact not_lt.mp hbig
  have h := lp2Loop_sound sqrt hs lines radius optVelocity hunit hclean
    (lines.length - 0) 0
    (if radius * radius < absSq optVelocity then
      (normalize sqrt optVelocity).mult radius else optVelocity)
    rfl hinit (fun j hj => absurd hj (Nat.not_lt_zero j))
  have heq : linearProgram2 sqrt lines radius optVelocity false
      = lp2Loop sqrt lines radius optVelocity false 0
        (if radius * radius < absSq optVelocity then
          (normalize sqrt optVelocity).mult radius else optVelocity) := by
    unfold linearProgram2
    dsimp only
    rw [if_neg (by simp : ¬(false = true))]
  rw [heq]
  exact ⟨h.1, fun he => ⟨(h.2.1 he).1, forall_getD_to_mem lines _ (h.2.1 he).2⟩, h.2.2⟩

/-- Witness for C3 at a concrete real instance (one satisfiable line). -/
theorem C3_witness :
    (linearProgram2 Real.sqrt [(⟨⟨0, 0⟩, ⟨1, 0⟩⟩ : Line ℝ)] 1 ⟨0, 0⟩ false).lineFail
      ≤ [(⟨⟨0, 0⟩, ⟨1, 0⟩⟩ : Line ℝ)].length :=
  (C3_lp2_total Real.sqrt goodSqrt_real [⟨⟨0, 0⟩, ⟨1, 0⟩⟩] 1 ⟨0, 0⟩ (by norm_num)
    (by
      intro L hL
      rw [List.mem_singleton] at hL
      subst hL
      norm_num [absSq])
    (by
      intro L hL M hM
      rw [List.mem_singleton] at hL hM
      subst hL
      subst hM
      left
      norm_num [det])).1

/-! ### C1 trace -/

def headOnA (x : F) (v p : Vec F) : Agent F :=
  { id := "A", position := ⟨x, 0⟩, velocity := v, preferredVelocity := p,
    radius := 500, preferredSpeed := 1000, maxSpeed := 1000,
    anchors := (⟨0, 0⟩, ⟨2000, 0⟩), headingIndex := 1, color := "a" }

def headOnB (x : F) (v p : Vec F) : Agent F :=
  { id := "B", position := ⟨x, 0⟩, velocity := v, preferredVelocity := p,
    radius := 500, preferredSpeed := 1000, maxSpeed := 1000,
    anchors := (⟨2000, 0⟩, ⟨0, 0⟩), headingIndex := 1, color := "b" }

def headOnState (xA xB : F) (vA vB pA pB : Vec F) : RVOState F :=
  ⟨⟨none, none⟩, [headOnA xA vA pA, headOnB xB vB pB]⟩

def iterTicks (sqrt : F → F) (s : RVOState F) : ℕ → RVOState F
  | 0 => s
  | n + 1 => update sqrt (iterTicks sqrt s n) (1 / 20)

theorem axis_tick (sqrt : F → F) (hs : GoodSqrt sqrt) (xA xB : F) (vA vB pA pB : Vec F)
    (h2 : xA ≤ 600) (h3 : 1400 ≤ xB) :
    update sqrt (headOnState xA xB vA vB pA pB) (1 / 20)
      = headOnState (xA + 50) (xB - 50) ⟨1000, 0⟩ ⟨-1000, 0⟩ ⟨1000, 0⟩ ⟨-1000, 0⟩ := by
  have e1 : sqrt ((xA - 2000) * (xA - 2000) + (0 - 0) * (0 - 0)) = 2000 - xA :=
    goodSqrt_sqrt_eq hs (by linarith) (by ring)
  have e1B : sqrt ((xB - 0) * (xB - 0) + (0 - 0) * (0 - 0)) = xB :=
    goodSqrt_sqrt_eq hs (by linarith) (by ring)
  have e2 : sqrt ((2000 - xA) * (2000 - xA) + (0 - 0) * (0 - 0)) = 2000 - xA :=
    goodSqrt_sqrt_eq hs (by linarith) (by ring)
  have e2B : sqrt ((0 - xB) * (0 - xB) + (0 - 0) * (0 - 0)) = xB :=
    goodSqrt_sqrt_eq hs (by linarith) (by ring)
  have hswapA : swapGoalIfNeeded sqrt (headOnA xA vA pA) = headOnA xA vA pA := by
    unfold swapGoalIfNeeded headOnA anchor dist mag Vec.sub
    dsimp only
    rw [if_neg (by decide : ¬(1 : Fin 2) = 0)]
    dsimp only
    rw [e1]
    rw [if_neg (by
      rw [max_eq_left (by norm_num : (6 : F) ≤ 500 * (4 / 5))]
      intro hcon
      norm_num at hcon
      linarith)]
  have hswapB : swapGoalIfNeeded sqrt (headOnB xB vB pB) = headOnB xB vB pB := by
    unfold swapGoalIfNeeded headOnB anchor dist mag Vec.sub
    dsimp only
    rw [if_neg (by decide : ¬(1 : Fin 2) = 0)]
    dsimp only
    rw [e1B]
    rw [if_neg (by
      rw [max_eq_left (by norm_num : (6 : F) ≤ 500 * (4 / 5))]
      intro hcon
      norm_num at hcon
      linarith)]
  have hne2000 : (2000 : F) - xA ≠ 0 := by intro h; linarith
  have hnexB : xB ≠ 0 := by intro h; linarith
  have hvecA : ((Vec.mk ((2000 : F) - xA) (0 - 0)).mult (1 / (2000 - xA))).mult 1000
      = Vec.mk 1000 0 := by
    simp only [Vec.mult, Vec.mk.injEq]
    constructor
    · field_simp
    · ring
  have hvecB : ((Vec.mk ((0 : F) - xB) (0 - 0)).mult (1 / xB)).mult 1000
      = Vec.mk (-1000) 0 := by
    simp only [Vec.mult, Vec.mk.injEq]
    constructor
    · field_simp
    · ring
  have hlimA : limit sqrt (Vec.mk (1000 : F) 0) 1000 = Vec.mk 1000 0 := by
    unfold limit mag
    dsimp only
    rw [goodSqrt_sqrt_eq hs (by norm_num : (0 : F) ≤ 1000) (by norm_num)]
    rw [if_pos le_rfl]
  have hlimB : limit sqrt (Vec.mk (-1000 : F) 0) 1000 = Vec.mk (-1000) 0 := by
    unfold limit mag
    dsimp only
    rw [goodSqrt_sqrt_eq hs (by norm_num : (0 : F) ≤ 1000) (by norm_num)]
    rw [if_pos le_rfl]
  have hprefA : computePreferredVelocity sqrt (headOnA xA vA pA) = Vec.mk 1000 0 := by
    unfold computePreferredVelocity headOnA anchor mag Vec.sub
    dsimp only
    rw [if_neg (by decide : ¬(1 : Fin 2) = 0)]
    dsimp only
    rw [e2]
    rw [if_neg (by intro hcon; linarith)]
    rw [hvecA, hlimA]
  have hprefB : computePreferredVelocity sqrt (headOnB xB vB pB) = Vec.mk (-1000) 0 := by
    unfold computePreferredVelocity headOnB anchor mag Vec.sub
    dsimp only
    rw [if_neg (by decide : ¬(1 : Fin 2) = 0)]
    dsimp only
    rw [e2B]
    rw [if_neg (by intro hcon; linarith)]
    rw [hvecB, hlimB]
  have htable : buildNeighborTable [headOnA xA vA pA, headOnB xB vB pB]
      (neighborRadiusSqOf (⟨none, none⟩ : Params F)) = [[], []] := by
    unfold buildNeighborTable
    rw [show ([headOnA xA vA pA, headOnB xB vB pB] : List (Agent F)).length = 2 from rfl]
    rw [show allPairs 2 = [(0, 1)] from rfl]
    rw [List.foldl_cons, List.foldl_nil]
    unfold neighborStep
    dsimp only
    simp only [List.getD_cons_zero, List.getD_cons_succ]
    unfold headOnA headOnB absSq Vec.sub neighborRadiusSqOf pixelsPerMeter
    dsimp only
    simp only [Option.getD_none]
    rw [if_pos (by
      have h800 : (800 : F) ≤ xB - xA := by linarith
      nlinarith [mul_le_mul h800 h800 (by linarith : (0 : F) ≤ 800)
        (by linarith : (0 : F) ≤ xB - xA)])]
    rfl
  have hlp2A : linearProgram2 sqrt ([] : List (Line F)) 1000 (Vec.mk 1000 0) false
      = ⟨0, Vec.mk 1000 0⟩ := by
    unfold linearProgram2
    dsimp only
    rw [if_neg (by norm_num [absSq] : ¬((1000 : F) * 1000 < absSq (Vec.mk (1000 : F) 0)))]
    rw [lp2Loop, dif_neg (by simp)]
    simp
  have hlp2B : linearProgram2 sqrt ([] : List (Line F)) 1000 (Vec.mk (-1000) 0) false
      = ⟨0, Vec.mk (-1000) 0⟩ := by
    unfold linearProgram2
    dsimp only
    rw [if_neg (by norm_num [absSq] : ¬((1000 : F) * 1000 < absSq (Vec.mk (-1000 : F) 0)))]
    rw [lp2Loop, dif_neg (by simp)]
    simp
  have hcnv0 : computeNewVelocity sqrt [headOnA xA vA pA, headOnB xB vB pB] [[], []]
      (invTimeHorizonOf (⟨none, none⟩ : Params F)) ((1 : F) / 20) 0
      = (Vec.mk 1000 0, Vec.mk 1000 0) := by
    unfold computeNewVelocity
    simp only [List.getD_cons_zero, List.getD_cons_succ, List.map_nil]
    rw [hprefA]
    rw [show (headOnA xA vA pA).maxSpeed = (1000 : F) from rfl]
    rw [hlp2A]
    dsimp only
    rw [if_neg (by simp)]
    rw [hlimA]
  have hcnv1 : computeNewVelocity sqrt [headOnA xA vA pA, headOnB xB vB pB] [[], []]
      (invTimeHorizonOf (⟨none, none⟩ : Params F)) ((1 : F) / 20) 1
      = (Vec.mk (-1000) 0, Vec.mk (-1000) 0) := by
    unfold computeNewVelocity
    simp only [List.getD_cons_zero, List.getD_cons_succ, List.map_nil]
    rw [hprefB]
    rw [show (headOnB xB vB pB).maxSpeed = (1000 : F) from rfl]
    rw [hlp2B]
    dsimp only
    rw [if_neg (by simp)]
    rw [hlimB]
  rw [update_advance sqrt _ _ (by norm_num) (by simp [headOnState])]
  show RVOState.mk _ _ = _
  unfold headOnState updateAgents
  dsimp only
  rw [min_self]
  rw [List.map_cons, List.map_cons, List.map_nil, hswapA, hswapB]
  unfold velocityPhase
  dsimp only
  rw [htable]
  rw [show ([headOnA xA vA pA, headOnB xB vB pB] : List (Agent F)).length = 2 from rfl]
  rw [show List.range 2 = [0, 1] from rfl]
  rw [List.map_cons, List.map_cons, List.map_nil]
  rw [hcnv0, hcnv1]
  unfold applyPhase
  simp only [List.zipWith_cons_cons, List.zipWith_nil_right]
  unfold headOnA headOnB Vec.add Vec.mult
  dsimp only
  norm_num
  ring

theorem headOn_trace (sqrt : F → F) (hs : GoodSqrt sqrt) :
    ∀ n : ℕ, n ≤ 13 → n ≠ 0 →
    iterTicks sqrt (headOnState 0 2000 Vec.zero Vec.zero Vec.zero Vec.zero) n
      = headOnState (50 * (n : F)) (2000 - 50 * (n : F))
          ⟨1000, 0⟩ ⟨-1000, 0⟩ ⟨1000, 0⟩ ⟨-1000, 0⟩ := by
  intro n
  induction n with
  | zero => intro _ h0; exact absurd rfl h0
  | succ n ih =>
    intro hle _
    rw [show iterTicks sqrt (headOnState 0 2000 Vec.zero Vec.zero Vec.zero Vec.zero) (n + 1)
        = update sqrt
            (iterTicks sqrt (headOnState 0 2000 Vec.zero Vec.zero Vec.zero Vec.zero) n)
            (1 / 20) from rfl]
    by_cases hn0 : n = 0
    · subst hn0
      rw [show iterTicks sqrt (headOnState 0 2000 Vec.zero Vec.zero Vec.zero Vec.zero) 0
          = headOnState (0 : F) 2000 Vec.zero Vec.zero Vec.zero Vec.zero from rfl]
      rw [axis_tick sqrt hs 0 2000 _ _ _ _ (by norm_num) (by norm_num)]
      rw [show (0 : F) + 50 = 50 * (((0 + 1 : ℕ)) : F) by push_cast; ring]
      rw [show (2000 : F) - 50 = 2000 - 50 * (((0 + 1 : ℕ)) : F) by push_cast; ring]
    · have hcast : (n : F) ≤ 12 := by
        have h12 : n ≤ 12 := by omega
        exact_mod_cast Nat.cast_le.mpr h12
      rw [ih (by omega) hn0]
      rw [axis_tick sqrt hs (50 * (n : F)) (2000 - 50 * (n : F)) _ _ _ _
        (by linarith) (by linarith)]
      rw [show (50 : F) * (n : F) + 50 = 50 * (((n + 1 : ℕ)) : F) by push_cast; ring]
      rw [show (2000 : F) - 50 * (n : F) - 50 = 2000 - 50 * (((n + 1 : ℕ)) : F) by
        push_cast; ring]

def headOnStart : RVOState F :=
  headOnState 0 2000 Vec.zero Vec.zero Vec.zero Vec.zero

/-- C1: the collision-free guarantee fails.  Two agents of radius 500, placed
2000 apart on the x-axis with anchor goals through each other (a head-on
collision course), run 13 ticks of update at deltaTime 1/20; their squared
separation drops to 490000, strictly below ((rA + rB) - 1)^2 = 998001, so the
separation falls below (rA + rB) - ε already for the coarse tolerance ε = 1.
The agents start beyond the 220-pixel sensing radius, build no constraint
lines, and drive straight into each other at full speed. -/
theorem C1_head_on_separation_violated (sqrt : F → F) (hs : GoodSqrt sqrt) :
    absSq ((((iterTicks sqrt (headOnStart (F := F)) 13).agents.getD 1
            default).position).sub
        (((iterTicks sqrt (headOnStart (F := F)) 13).agents.getD 0
            default).position))
      < ((((iterTicks sqrt (headOnStart (F := F)) 13).agents.getD 0 default).radius
          + (((iterTicks sqrt (headOnStart (F := F)) 13).agents.getD 1
              default).radius)) - 1)
        * ((((iterTicks sqrt (headOnStart (F := F)) 13).agents.getD 0 default).radius
          + (((iterTicks sqrt (headOnStart (F := F)) 13).agents.getD 1
              default).radius)) - 1) := by
  unfold headOnStart
  rw [headOn_trace sqrt hs 13 (le_refl _) (by norm_num)]
  unfold headOnState headOnA headOnB absSq Vec.sub
  simp only [List.getD_cons_zero, List.getD_cons_succ]
  push_cast
  norm_num

/-- Witness for C1 over the reals with the exact square root. -/
theorem C1_witness :
    absSq ((((iterTicks Real.sqrt (headOnStart (F := ℝ)) 13).agents.getD 1
            default).position).sub
        (((iterTicks Real.sqrt (headOnStart (F := ℝ)) 13).agents.getD 0
            default).position))
      < ((((iterTicks Real.sqrt (headOnStart (F := ℝ)) 13).agents.getD 0
              default).radius
          + (((iterTicks Real.sqrt (headOnStart (F := ℝ)) 13).agents.getD 1
              default).radius)) - 1)
        * ((((iterTicks Real.sqrt (headOnStart (F := ℝ)) 13).agents.getD 0
              default).radius
          + (((iterTicks Real.sqrt (headOnStart (F := ℝ)) 13).agents.getD 1
              default).radius)) - 1) :=
  C1_head_on_separation_violated Real.sqrt goodSqrt_real


end RVO
